import Mathlib

/-!
Verification of the bump-pointer arena (`util/arena.cc`)

The arena of `util/arena.cc` is embedded as pure functions on an explicit state.

* Addresses (`char*`, `uintptr_t`) are natural numbers; the null pointer is `0`.
  Pointer arithmetic is exact: C++ defines it only inside one array, where it
  cannot wrap.
* `size_t` values are natural numbers below `sizeModulus = 2 ^ 64`; every
  unsigned addition the code performs on them is reduced modulo `sizeModulus`.
  The two subtractions of the code are guarded (`needed <= alloc_bytes_remaining_`,
  `bytes <= kBlockSize / 4`), so truncated subtraction is the exact one there.
* `new char[n]` is the one external call.  When it returns, it returns some
  address; that address is an explicit argument `fresh` of every operation that
  may reach `AllocateNewBlock` (it is ignored when no block is acquired).  A
  throwing `new` leaves no state to speak about.
* Every array the arena holds stays live until the destructor, and so does the
  array in which `blocks_` stores its entries. `Arena.inAddressSpace` says that
  these arrays are pairwise disjoint and lie between the null address and
  `2 ^ 64`; under it the counter `memory_usage_` cannot wrap (`blockTotal_lt`).
* `delete[]` is the other external call; the destructor is the list of the
  pointers it hands to `delete[]`, in the order of the calls.
* The platform is the 64-bit one: `sizeof(void*) = sizeof(char*) = 8`.
-/

namespace leveldb

/-! ## Constants -/

/-- Source: `static const int kBlockSize = 4096;` -/
def kBlockSize : Nat := 4096

/-- Number of values of a `size_t`; unsigned arithmetic is modulo this number. -/
def sizeModulus : Nat := 2 ^ 64

/-- Value of `sizeof(void*)` and of `sizeof(char*)` on the modelled platform. -/
def sizeofPtr : Nat := 8

/-- Source: `const int align = (sizeof(void*) > 8) ? sizeof(void*) : 8;` -/
def align : Nat := if sizeofPtr > 8 then sizeofPtr else 8

/-! ## State -/

/-- One array obtained from `new char[size]`: its first address and its length.
`blocks_` stores the pointer only; the length is the one given to `new[]`. -/
structure Block where
  start : Nat
  size : Nat
deriving DecidableEq

/-- The data members of `class Arena`. -/
structure Arena where
  alloc_ptr_ : Nat
  alloc_bytes_remaining_ : Nat
  blocks_ : List Block
  memory_usage_ : Nat
deriving DecidableEq

/-- The constructor. Source: `Arena::Arena() : alloc_ptr_(nullptr), alloc_bytes_remaining_(0), memory_usage_(0) {}`;
`blocks_` is default-constructed, hence empty. -/
def Arena.ctor : Arena :=
  { alloc_ptr_ := 0, alloc_bytes_remaining_ := 0, blocks_ := [], memory_usage_ := 0 }

/-! ## Operations -/

/-- Source: `Arena::AllocateNewBlock`.  The argument `fresh` is the value of
`new char[block_bytes]`.  The block is pushed at the back of `blocks_` and the
counter receives `fetch_add(block_bytes + sizeof(char*))`, both in `size_t`. -/
def Arena.AllocateNewBlock (s : Arena) (block_bytes fresh : Nat) : Nat × Arena :=
  let result := fresh
  (result,
    { s with
      blocks_ := s.blocks_ ++ [{ start := result, size := block_bytes }]
      memory_usage_ :=
        (s.memory_usage_ + (block_bytes + sizeofPtr) % sizeModulus) % sizeModulus })

/-- Source: `Arena::AllocateFallback`. -/
def Arena.AllocateFallback (s : Arena) (bytes fresh : Nat) : Nat × Arena :=
  if bytes > kBlockSize / 4 then
    -- Object is more than a quarter of our block size.  Allocate it separately
    s.AllocateNewBlock bytes fresh
  else
    -- We waste the remaining space in the current block.
    let (p, s1) := s.AllocateNewBlock kBlockSize fresh
    let s2 := { s1 with alloc_ptr_ := p, alloc_bytes_remaining_ := kBlockSize }
    let result := s2.alloc_ptr_
    (result,
      { s2 with
        alloc_ptr_ := s2.alloc_ptr_ + bytes
        alloc_bytes_remaining_ := s2.alloc_bytes_remaining_ - bytes })

/-- Source: `Arena::AllocateAligned`, up to (not including) the final `assert`. -/
def Arena.AllocateAligned (s : Arena) (bytes fresh : Nat) : Nat × Arena :=
  let current_mod := s.alloc_ptr_ &&& (align - 1)
  let slop := if current_mod = 0 then 0 else align - current_mod
  let needed := (bytes + slop) % sizeModulus
  if needed ≤ s.alloc_bytes_remaining_ then
    (s.alloc_ptr_ + slop,
      { s with
        alloc_ptr_ := s.alloc_ptr_ + needed
        alloc_bytes_remaining_ := s.alloc_bytes_remaining_ - needed })
  else
    -- AllocateFallback always returned aligned memory
    s.AllocateFallback bytes fresh

/-- Source: the condition of the last statement of `Arena::AllocateAligned`,
`assert((reinterpret_cast<uintptr_t>(result) & (align - 1)) == 0);`. -/
def Arena.AllocateAligned_assert (result : Nat) : Bool :=
  (result &&& (align - 1)) == 0

/-! ## The local variables of `AllocateAligned`, as functions of the state -/

/-- Local `current_mod` of `AllocateAligned`. -/
def Arena.current_mod (s : Arena) : Nat := s.alloc_ptr_ &&& (align - 1)

/-- Local `slop` of `AllocateAligned`. -/
def Arena.slop (s : Arena) : Nat :=
  if s.current_mod = 0 then 0 else align - s.current_mod

/-- Local `needed` of `AllocateAligned`: the `size_t` sum `bytes + slop`. -/
def Arena.needed (s : Arena) (bytes : Nat) : Nat := (bytes + s.slop) % sizeModulus

/-- Truth of the test `needed <= alloc_bytes_remaining_` of `AllocateAligned`. -/
def Arena.fastPath (s : Arena) (bytes : Nat) : Bool :=
  decide (s.needed bytes ≤ s.alloc_bytes_remaining_)

/-! ## Sequences of `AllocateAligned` calls -/

/-- One client call `AllocateAligned(bytes)`, with the address `fresh` that
`new[]` hands back if that call acquires a block. -/
structure Request where
  bytes : Nat
  fresh : Nat
deriving DecidableEq

/-- What one call handed to its caller: the returned address `ptr`, the
requested size `bytes`, and `burned`, the alignment padding the call skipped
before `ptr` (the `slop` of a fast-path call, nothing on the fallback path,
where the result is the start of a new block). -/
structure Allocation where
  ptr : Nat
  bytes : Nat
  burned : Nat
deriving DecidableEq

/-- The record of the call `r` made in state `s`. -/
def Arena.allocationOf (s : Arena) (r : Request) : Allocation :=
  { ptr := (s.AllocateAligned r.bytes r.fresh).1
    bytes := r.bytes
    burned := if s.fastPath r.bytes then s.slop else 0 }

/-- Runs the calls of `reqs` in order from state `s`; gives the allocations in
call order and the final state. -/
def Arena.runAligned (s : Arena) : List Request → List Allocation × Arena
  | [] => ([], s)
  | r :: rs =>
    let rest := (s.AllocateAligned r.bytes r.fresh).2.runAligned rs
    (s.allocationOf r :: rest.1, rest.2)

/-- The requested ranges `[ptr, ptr + bytes)` of two allocations share an address. -/
def Allocation.overlaps (a b : Allocation) : Prop :=
  ∃ x, a.ptr ≤ x ∧ x < a.ptr + a.bytes ∧ b.ptr ≤ x ∧ x < b.ptr + b.bytes

/-- One requested range ends before the other begins. -/
def Allocation.separated (a b : Allocation) : Prop :=
  a.ptr + a.bytes ≤ b.ptr ∨ b.ptr + b.bytes ≤ a.ptr

instance (a b : Allocation) : Decidable (a.separated b) :=
  inferInstanceAs (Decidable (_ ∨ _))

/-- One block ends before the other begins: the two arrays are disjoint. -/
def Block.separated (a b : Block) : Prop :=
  a.start + a.size ≤ b.start ∨ b.start + b.size ≤ a.start

instance (a b : Block) : Decidable (a.separated b) :=
  inferInstanceAs (Decidable (_ ∨ _))

/-- The requested range lies inside one of the blocks, or is the empty range at
the null address (what a zero-byte request gets while no block is installed). -/
def Allocation.inBlocks (a : Allocation) (blocks : List Block) : Prop :=
  (a.ptr = 0 ∧ a.bytes = 0) ∨
    ∃ b ∈ blocks, b.start ≤ a.ptr ∧ a.ptr + a.bytes ≤ b.start + b.size

/-- The free tail `[alloc_ptr_, alloc_ptr_ + alloc_bytes_remaining_)` lies inside
one of the blocks, or the cursor is unset. -/
def Arena.tailInBlocks (s : Arena) : Prop :=
  (s.alloc_ptr_ = 0 ∧ s.alloc_bytes_remaining_ = 0) ∨
    ∃ b ∈ s.blocks_, b.start ≤ s.alloc_ptr_ ∧
      s.alloc_ptr_ + s.alloc_bytes_remaining_ ≤ b.start + b.size

/-- The allocation does not reach into the free tail of the current block. -/
def Allocation.clearOfTail (a : Allocation) (s : Arena) : Prop :=
  a.ptr + a.bytes ≤ s.alloc_ptr_ ∨ s.alloc_ptr_ + s.alloc_bytes_remaining_ ≤ a.ptr

/-- Invariant that relates the allocations made so far to the state. -/
def Arena.allocInv (s : Arena) (prev : List Allocation) : Prop :=
  (∀ a ∈ prev, a.inBlocks s.blocks_) ∧ (∀ a ∈ prev, a.clearOfTail s) ∧ s.tailInBlocks

/-- Length of the block `AllocateFallback(bytes)` passes to `AllocateNewBlock`:
`bytes` on the large path, `kBlockSize` on the small path. -/
def Arena.fallbackBlockBytes (bytes : Nat) : Nat :=
  if bytes > kBlockSize / 4 then bytes else kBlockSize

/-- Sum of the requested sizes of the allocations. -/
def requestedBytes (l : List Allocation) : Nat := (l.map Allocation.bytes).sum

/-- Sum of the alignment padding the allocations burned. -/
def burnedSlop (l : List Allocation) : Nat := (l.map Allocation.burned).sum

/-- The cursor is unset, or lies in a block of `kBlockSize` bytes that starts at
a multiple of 8, with the remaining capacity reaching to the end of that block. -/
def Arena.alignedCursor (s : Arena) : Prop :=
  (s.alloc_ptr_ = 0 ∧ s.alloc_bytes_remaining_ = 0) ∨
    ∃ b, b % 8 = 0 ∧ b ≤ s.alloc_ptr_ ∧
      s.alloc_ptr_ + s.alloc_bytes_remaining_ = b + kBlockSize

/-! ## Reachable states -/

/-- A call of one of the two allocating member functions of `arena.cc`, with the
address `new[]` hands back if the call acquires a block. -/
inductive Call where
  | aligned (bytes fresh : Nat)
  | fallback (bytes fresh : Nat)
deriving DecidableEq

/-- State after the call. -/
def Arena.step (s : Arena) : Call → Arena
  | .aligned bytes fresh => (s.AllocateAligned bytes fresh).2
  | .fallback bytes fresh => (s.AllocateFallback bytes fresh).2

/-- Whether the call reaches the statements
`alloc_ptr_ = AllocateNewBlock(kBlockSize); alloc_bytes_remaining_ = kBlockSize;`
of `AllocateFallback`, that is, installs a new standard block. -/
def Arena.installsStandard (s : Arena) : Call → Bool
  | .aligned bytes _ => !(s.fastPath bytes) && decide (bytes ≤ kBlockSize / 4)
  | .fallback bytes _ => decide (bytes ≤ kBlockSize / 4)

/-- Address `new[]` hands back to the call if it acquires a block. -/
def Call.fresh : Call → Nat
  | .aligned _ fresh => fresh
  | .fallback _ fresh => fresh

/-- An arena together with the start of the standard block installed most
recently (`none` while none has been installed). The second component is not
program state: it records the history the invariant speaks about. -/
structure Tracked where
  arena : Arena
  standard : Option Nat
deriving DecidableEq

/-- One call on a tracked arena. -/
def Tracked.step (t : Tracked) (c : Call) : Tracked :=
  { arena := t.arena.step c
    standard := if t.arena.installsStandard c then some c.fresh else t.standard }

/-- The freshly constructed arena: no standard block installed yet. -/
def Tracked.ctor : Tracked := { arena := Arena.ctor, standard := none }

/-- The calls of `calls`, in order. -/
def Tracked.run (t : Tracked) (calls : List Call) : Tracked :=
  calls.foldl Tracked.step t

/-- The cursor is unset, or it lies in the standard block installed most
recently and the remaining capacity is the distance to the end of that block. -/
def Tracked.cursorInv (t : Tracked) : Prop :=
  (t.standard = none ∧ t.arena.alloc_ptr_ = 0 ∧ t.arena.alloc_bytes_remaining_ = 0) ∨
    ∃ b, t.standard = some b ∧ { start := b, size := kBlockSize } ∈ t.arena.blocks_ ∧
      b ≤ t.arena.alloc_ptr_ ∧ t.arena.alloc_ptr_ ≤ b + kBlockSize ∧
      t.arena.alloc_bytes_remaining_ = b + kBlockSize - t.arena.alloc_ptr_

/-! ## Accounting, acquisition log and destruction -/

/-- What the blocks of a list account for: each block its length plus
`sizeof(char*)`, summed as exact integers. -/
def blockTotal (blocks : List Block) : Nat :=
  (blocks.map (fun b => b.size + sizeofPtr)).sum

/-- Sum of the lengths of the blocks of a list. -/
def blockBytes (blocks : List Block) : Nat := (blocks.map Block.size).sum

/-- The invocations of `AllocateNewBlock` that the call makes in state `s`, each
given by the array `new[]` handed back: none when `AllocateAligned` takes its
then-branch, otherwise the single invocation made by `AllocateFallback`. -/
def Arena.acquired (s : Arena) : Call → List Block
  | .aligned bytes fresh =>
    if s.fastPath bytes then [] else [{ start := fresh, size := Arena.fallbackBlockBytes bytes }]
  | .fallback bytes fresh => [{ start := fresh, size := Arena.fallbackBlockBytes bytes }]

/-- The invocations of `AllocateNewBlock` made by the calls of a list, run in
order from state `s`: the acquisition log, oldest first. -/
def Arena.acquiredLog (s : Arena) : List Call → List Block
  | [] => []
  | c :: cs => s.acquired c ++ (s.step c).acquiredLog cs

/-- Source: the loop of `Arena::~Arena()` from index `i` on,
`for (; i < blocks_.size(); i++) { delete[] blocks_[i]; }`.
The value is the list of pointers handed to `delete[]`, in order. -/
def Arena.releaseFrom (s : Arena) (i : Nat) : List Nat :=
  if h : i < s.blocks_.length then s.blocks_[i].start :: s.releaseFrom (i + 1) else []
termination_by s.blocks_.length - i

/-- Source: `Arena::~Arena()`; the loop starts at `i = 0`. -/
def Arena.dtor (s : Arena) : List Nat := s.releaseFrom 0

/-! ## The address space -/

/-- The array in which `blocks_`, a `std::vector<char*>`, keeps its entries:
`sizeof(char*)` bytes for each entry, from address `storage` on. -/
def Arena.blocksStorage (s : Arena) (storage : Nat) : Block :=
  { start := storage, size := sizeofPtr * s.blocks_.length }

/-- The memory the arena holds lies in the address space of the platform: the
arrays of `blocks_` and the array that stores the entries of `blocks_` (at
`storage`) are pairwise disjoint, none of them contains the null address, and
each ends at or below `2 ^ 64`. All of them are live for as long as the arena
is, since only the destructor releases them. -/
def Arena.inAddressSpace (s : Arena) (storage : Nat) : Prop :=
  List.Pairwise Block.separated (s.blocksStorage storage :: s.blocks_) ∧
    ∀ b ∈ s.blocksStorage storage :: s.blocks_, 0 < b.start ∧ b.start + b.size ≤ sizeModulus

instance (s : Arena) (storage : Nat) : Decidable (s.inAddressSpace storage) :=
  inferInstanceAs (Decidable (_ ∧ _))

/-- The addresses of a block. -/
def Block.cells (b : Block) : Finset Nat := Finset.Ico b.start (b.start + b.size)

/-- The addresses covered by the blocks of a list. -/
def cellsOf : List Block → Finset Nat
  | [] => ∅
  | b :: bs => b.cells ∪ cellsOf bs

/-! ## Concrete inputs used by the witnesses and counterexamples -/

/-- A short run used to exercise the statements: a zero-byte request on the
empty arena, small requests, a zero-byte request inside a block, a request served
by a dedicated block, and further small requests. -/
def sampleRequests : List Request :=
  [⟨0, 0⟩, ⟨5, 8⟩, ⟨100, 0⟩, ⟨0, 0⟩, ⟨2000, 8192⟩, ⟨4000, 16384⟩, ⟨24, 0⟩, ⟨1024, 32768⟩]

/-- The state `AllocateAligned(1)` leaves when called on the fresh arena and
`new[]` hands back address 8: cursor 9, with 4095 bytes left in `[8, 4104)`. -/
def oneByteState : Arena :=
  { alloc_ptr_ := 9, alloc_bytes_remaining_ := 4095,
    blocks_ := [{ start := 8, size := 4096 }], memory_usage_ := 4104 }

/-- Four requests of 1024 bytes fill the first standard block (at address 8)
exactly; the request of one byte that follows triggers a refill (block at 8192). -/
def refillRequests : List Request :=
  [⟨1024, 8⟩, ⟨1024, 0⟩, ⟨1024, 0⟩, ⟨1024, 0⟩, ⟨1, 8192⟩]

/-- A state whose current standard block `[8, 4104)` has the cursor at offset
200 and 3896 bytes remaining. -/
def offset200State : Arena :=
  { alloc_ptr_ := 208, alloc_bytes_remaining_ := 3896,
    blocks_ := [{ start := 8, size := 4096 }], memory_usage_ := 4104 }

/-- A request of 2000 bytes served by the dedicated array `[4104, 6104)`, then
four requests of 1024 bytes that fill the standard block `[8, 4104)` exactly:
the cursor ends at 4104, the first address of the dedicated array. -/
def adjacentRequests : List Request :=
  [⟨2000, 4104⟩, ⟨1024, 8⟩, ⟨1024, 0⟩, ⟨1024, 0⟩, ⟨1024, 0⟩]

/-- A short run of calls of both member functions: a small request (first
standard block at 8), a direct large fallback (dedicated array at 8192), a
request served from the current block, and a direct small fallback (second
standard block at 16384). -/
def sampleCalls : List Call :=
  [.aligned 5 8, .fallback 2000 8192, .aligned 100 0, .fallback 10 16384]

/-! ## Basic facts -/

theorem align_eq : align = 8 := by decide

theorem sizeModulus_eq : sizeModulus = 18446744073709551616 := by decide

theorem land_align_pred (a : Nat) : a &&& (align - 1) = a % 8 := by
  have h := Nat.and_pow_two_sub_one_eq_mod a 3
  simpa [align_eq] using h

theorem current_mod_eq (s : Arena) : s.current_mod = s.alloc_ptr_ % 8 := by
  unfold Arena.current_mod
  exact land_align_pred _

theorem slop_eq (s : Arena) :
    s.slop = if s.alloc_ptr_ % 8 = 0 then 0 else 8 - s.alloc_ptr_ % 8 := by
  unfold Arena.slop
  rw [current_mod_eq, align_eq]

theorem slop_lt (s : Arena) : s.slop < 8 := by
  rw [slop_eq]; split <;> omega

theorem slop_aligns (s : Arena) : (s.alloc_ptr_ + s.slop) % 8 = 0 := by
  rw [slop_eq]; split <;> omega

theorem AllocateAligned_fast (s : Arena) (bytes fresh : Nat)
    (h : s.needed bytes ≤ s.alloc_bytes_remaining_) :
    s.AllocateAligned bytes fresh =
      (s.alloc_ptr_ + s.slop,
        { s with
          alloc_ptr_ := s.alloc_ptr_ + s.needed bytes
          alloc_bytes_remaining_ := s.alloc_bytes_remaining_ - s.needed bytes }) := by
  unfold Arena.needed Arena.slop Arena.current_mod at h
  unfold Arena.AllocateAligned Arena.needed Arena.slop Arena.current_mod
  simp only [h, if_true]

theorem AllocateAligned_slow (s : Arena) (bytes fresh : Nat)
    (h : ¬ s.needed bytes ≤ s.alloc_bytes_remaining_) :
    s.AllocateAligned bytes fresh = s.AllocateFallback bytes fresh := by
  unfold Arena.needed Arena.slop Arena.current_mod at h
  unfold Arena.AllocateAligned
  simp only [h, if_false]

theorem AllocateFallback_large (s : Arena) (bytes fresh : Nat) (h : bytes > 1024) :
    s.AllocateFallback bytes fresh =
      (fresh,
        { s with
          blocks_ := s.blocks_ ++ [{ start := fresh, size := bytes }]
          memory_usage_ := (s.memory_usage_ + (bytes + 8)) % sizeModulus }) := by
  have hk : bytes > kBlockSize / 4 := by unfold kBlockSize; omega
  unfold Arena.AllocateFallback Arena.AllocateNewBlock
  simp only [hk, if_true, sizeofPtr, Nat.add_mod_mod]

theorem AllocateFallback_small (s : Arena) (bytes fresh : Nat) (h : bytes ≤ 1024) :
    s.AllocateFallback bytes fresh =
      (fresh,
        { alloc_ptr_ := fresh + bytes
          alloc_bytes_remaining_ := 4096 - bytes
          blocks_ := s.blocks_ ++ [{ start := fresh, size := 4096 }]
          memory_usage_ := (s.memory_usage_ + 4104) % sizeModulus }) := by
  have hk : ¬ bytes > 4096 / 4 := by omega
  unfold Arena.AllocateFallback Arena.AllocateNewBlock
  simp only [sizeofPtr, kBlockSize, Nat.add_mod_mod, hk, if_false]

/-! ## C1: alignment of the returned address -/

/-- C1. Whatever the state and the request size, if the address handed back by
`new[]` is a multiple of 8 then the address returned by `AllocateAligned` is a
multiple of 8, on the fast path and on the fallback path alike, and the
condition of the final `assert` is true. -/
theorem AllocateAligned_returns_aligned (s : Arena) (bytes fresh : Nat)
    (hfresh : fresh % 8 = 0) :
    (s.AllocateAligned bytes fresh).1 % 8 = 0 ∧
      Arena.AllocateAligned_assert (s.AllocateAligned bytes fresh).1 = true := by
  have hres : (s.AllocateAligned bytes fresh).1 % 8 = 0 := by
    by_cases h : s.needed bytes ≤ s.alloc_bytes_remaining_
    · rw [AllocateAligned_fast s bytes fresh h]
      exact slop_aligns s
    · rw [AllocateAligned_slow s bytes fresh h]
      by_cases hb : bytes > 1024
      · rw [AllocateFallback_large s bytes fresh hb]
        exact hfresh
      · rw [AllocateFallback_small s bytes fresh (by omega)]
        exact hfresh
  refine ⟨hres, ?_⟩
  unfold Arena.AllocateAligned_assert
  rw [land_align_pred, hres]
  rfl

theorem AllocateAligned_returns_aligned_witness :
    16 % 8 = 0 ∧
      ((Arena.ctor.AllocateAligned 5 16).1 % 8 = 0 ∧
        Arena.AllocateAligned_assert (Arena.ctor.AllocateAligned 5 16).1 = true) :=
  ⟨by decide, AllocateAligned_returns_aligned Arena.ctor 5 16 (by decide)⟩

/-! ## C2: the fast path of `AllocateAligned` -/

/-- C2. With `current_mod = alloc_ptr_ mod 8`, `slop = 0` when `current_mod = 0`
and `8 - current_mod` otherwise, and `needed = bytes + slop` (the `size_t` sum,
which is the exact sum whenever that is below `2 ^ 64`): if
`needed <= alloc_bytes_remaining_` then `AllocateAligned` returns
`alloc_ptr_ + slop`, advances `alloc_ptr_` by `needed`, takes `needed` off
`alloc_bytes_remaining_`, and leaves `blocks_` and `memory_usage_` unchanged. -/
theorem AllocateAligned_fast_path (s : Arena) (bytes fresh : Nat)
    (h : s.needed bytes ≤ s.alloc_bytes_remaining_) :
    (s.current_mod = s.alloc_ptr_ % 8 ∧
      s.slop = (if s.current_mod = 0 then 0 else 8 - s.current_mod) ∧
      (bytes + s.slop < 2 ^ 64 → s.needed bytes = bytes + s.slop)) ∧
    (s.AllocateAligned bytes fresh).1 = s.alloc_ptr_ + s.slop ∧
    (s.AllocateAligned bytes fresh).2.alloc_ptr_ = s.alloc_ptr_ + s.needed bytes ∧
    (s.AllocateAligned bytes fresh).2.alloc_bytes_remaining_ + s.needed bytes
      = s.alloc_bytes_remaining_ ∧
    (s.AllocateAligned bytes fresh).2.blocks_ = s.blocks_ ∧
    (s.AllocateAligned bytes fresh).2.memory_usage_ = s.memory_usage_ := by
  rw [AllocateAligned_fast s bytes fresh h]
  refine ⟨⟨current_mod_eq s, ?_, ?_⟩, rfl, rfl, ?_, rfl, rfl⟩
  · unfold Arena.slop
    rw [align_eq]
  · intro hlt
    unfold Arena.needed sizeModulus
    exact Nat.mod_eq_of_lt hlt
  · exact Nat.sub_add_cancel h

theorem AllocateAligned_fast_path_witness :
    (({ alloc_ptr_ := 9, alloc_bytes_remaining_ := 4095,
        blocks_ := [{ start := 8, size := 4096 }], memory_usage_ := 4104 } : Arena).AllocateAligned
        100 0).1 = 16 ∧
    (({ alloc_ptr_ := 9, alloc_bytes_remaining_ := 4095,
        blocks_ := [{ start := 8, size := 4096 }], memory_usage_ := 4104 } : Arena).AllocateAligned
        100 0).2.alloc_ptr_ = 116 := by
  have h := AllocateAligned_fast_path
    { alloc_ptr_ := 9, alloc_bytes_remaining_ := 4095,
      blocks_ := [{ start := 8, size := 4096 }], memory_usage_ := 4104 } 100 0 (by decide)
  exact ⟨h.2.1, h.2.2.1⟩

/-! ## C3: the large-request path of `AllocateFallback` -/

/-- C3. For `bytes > kBlockSize / 4 = 1024`, `AllocateFallback` acquires one block
of exactly `bytes` bytes, appends it to `blocks_`, adds `bytes + sizeof(char*)`
to `memory_usage_` (a `size_t` addition, exact when the sum is below `2 ^ 64`),
returns the start of that block and leaves `alloc_ptr_` and
`alloc_bytes_remaining_` as they were; `AllocateAligned` does the same whenever
it takes its else-branch with such a size. -/
theorem AllocateFallback_large_request (s : Arena) (bytes fresh : Nat)
    (h : bytes > kBlockSize / 4) :
    kBlockSize / 4 = 1024 ∧
    (s.AllocateFallback bytes fresh).1 = fresh ∧
    (s.AllocateFallback bytes fresh).2.blocks_
      = s.blocks_ ++ [{ start := fresh, size := bytes }] ∧
    (s.AllocateFallback bytes fresh).2.memory_usage_
      = (s.memory_usage_ + (bytes + sizeofPtr)) % 2 ^ 64 ∧
    (s.memory_usage_ + (bytes + sizeofPtr) < 2 ^ 64 →
      (s.AllocateFallback bytes fresh).2.memory_usage_
        = s.memory_usage_ + (bytes + sizeofPtr)) ∧
    (s.AllocateFallback bytes fresh).2.alloc_ptr_ = s.alloc_ptr_ ∧
    (s.AllocateFallback bytes fresh).2.alloc_bytes_remaining_ = s.alloc_bytes_remaining_ ∧
    (¬ s.needed bytes ≤ s.alloc_bytes_remaining_ →
      s.AllocateAligned bytes fresh = s.AllocateFallback bytes fresh) := by
  have hb : bytes > 1024 := by unfold kBlockSize at h; omega
  rw [AllocateFallback_large s bytes fresh hb]
  refine ⟨by decide, rfl, rfl, rfl, ?_, rfl, rfl, ?_⟩
  · intro hlt
    show (s.memory_usage_ + (bytes + 8)) % sizeModulus = s.memory_usage_ + (bytes + sizeofPtr)
    unfold sizeModulus sizeofPtr
    unfold sizeofPtr at hlt
    exact Nat.mod_eq_of_lt hlt
  · intro hslow
    rw [AllocateAligned_slow s bytes fresh hslow, AllocateFallback_large s bytes fresh hb]

theorem AllocateFallback_large_request_witness :
    (({ alloc_ptr_ := 208, alloc_bytes_remaining_ := 3896,
        blocks_ := [{ start := 8, size := 4096 }], memory_usage_ := 4104 } : Arena).AllocateFallback
        1025 8192).2
      = { alloc_ptr_ := 208, alloc_bytes_remaining_ := 3896,
          blocks_ := [{ start := 8, size := 4096 }, { start := 8192, size := 1025 }],
          memory_usage_ := 5137 } ∧
    (({ alloc_ptr_ := 208, alloc_bytes_remaining_ := 3896,
        blocks_ := [{ start := 8, size := 4096 }], memory_usage_ := 4104 } : Arena).AllocateFallback
        1025 8192).2.memory_usage_ = 4104 + (1025 + sizeofPtr) :=
  ⟨by decide,
    (AllocateFallback_large_request
      { alloc_ptr_ := 208, alloc_bytes_remaining_ := 3896,
        blocks_ := [{ start := 8, size := 4096 }], memory_usage_ := 4104 } 1025 8192
      (by decide)).2.2.2.2.1 (by decide)⟩

/-! ## C4: the small-request path of `AllocateFallback` -/

/-- C4. For `bytes <= kBlockSize / 4 = 1024`, `AllocateFallback` acquires one
block of `kBlockSize = 4096` bytes, appends it to `blocks_`, adds
`4096 + sizeof(char*)` to `memory_usage_` (a `size_t` addition, exact when the
sum is below `2 ^ 64`), returns the block start, and leaves
`alloc_ptr_ = block start + bytes` and `alloc_bytes_remaining_ = 4096 - bytes`,
whatever the cursor and the remaining capacity were before. -/
theorem AllocateFallback_small_request (s : Arena) (bytes fresh : Nat)
    (h : bytes ≤ kBlockSize / 4) :
    (kBlockSize / 4 = 1024 ∧ kBlockSize = 4096) ∧
    (s.AllocateFallback bytes fresh).1 = fresh ∧
    (s.AllocateFallback bytes fresh).2.blocks_
      = s.blocks_ ++ [{ start := fresh, size := 4096 }] ∧
    (s.AllocateFallback bytes fresh).2.memory_usage_
      = (s.memory_usage_ + (4096 + sizeofPtr)) % 2 ^ 64 ∧
    (s.memory_usage_ + (4096 + sizeofPtr) < 2 ^ 64 →
      (s.AllocateFallback bytes fresh).2.memory_usage_
        = s.memory_usage_ + (4096 + sizeofPtr)) ∧
    (s.AllocateFallback bytes fresh).2.alloc_ptr_ = fresh + bytes ∧
    (s.AllocateFallback bytes fresh).2.alloc_bytes_remaining_ + bytes = 4096 := by
  have hb : bytes ≤ 1024 := by unfold kBlockSize at h; omega
  rw [AllocateFallback_small s bytes fresh hb]
  refine ⟨by decide, rfl, rfl, rfl, ?_, rfl, ?_⟩
  · intro hlt
    show (s.memory_usage_ + 4104) % sizeModulus = s.memory_usage_ + (4096 + sizeofPtr)
    unfold sizeModulus sizeofPtr
    unfold sizeofPtr at hlt
    exact Nat.mod_eq_of_lt hlt
  · show 4096 - bytes + bytes = 4096
    omega

theorem AllocateFallback_small_request_witness :
    (({ alloc_ptr_ := 208, alloc_bytes_remaining_ := 3896,
        blocks_ := [{ start := 8, size := 4096 }], memory_usage_ := 4104 } : Arena).AllocateFallback
        1024 8192).2
      = { alloc_ptr_ := 9216, alloc_bytes_remaining_ := 3072,
          blocks_ := [{ start := 8, size := 4096 }, { start := 8192, size := 4096 }],
          memory_usage_ := 8208 } ∧
    (({ alloc_ptr_ := 208, alloc_bytes_remaining_ := 3896,
        blocks_ := [{ start := 8, size := 4096 }], memory_usage_ := 4104 } : Arena).AllocateFallback
        1024 8192).2.alloc_ptr_ = 8192 + 1024 :=
  ⟨by decide,
    (AllocateFallback_small_request
      { alloc_ptr_ := 208, alloc_bytes_remaining_ := 3896,
        blocks_ := [{ start := 8, size := 4096 }], memory_usage_ := 4104 } 1024 8192
      (by decide)).2.2.2.2.2.1⟩

/-! ## C5: requested ranges never overlap -/

theorem needed_exact (s : Arena) (bytes : Nat) (hb : bytes + 7 < 2 ^ 64) :
    s.needed bytes = bytes + s.slop := by
  have hs := slop_lt s
  unfold Arena.needed sizeModulus
  exact Nat.mod_eq_of_lt (by omega)

theorem separated_not_overlaps (a b : Allocation) (h : a.separated b) : ¬ a.overlaps b := by
  rintro ⟨x, h1, h2, h3, h4⟩
  rcases h with h | h <;> omega

/-- The block a call appends to `blocks_`, if it appends one. -/
theorem AllocateAligned_blocks (s : Arena) (bytes fresh : Nat) :
    (s.AllocateAligned bytes fresh).2.blocks_ = s.blocks_ ∨
      ∃ n, (s.AllocateAligned bytes fresh).2.blocks_
        = s.blocks_ ++ [{ start := fresh, size := n }] := by
  by_cases h : s.needed bytes ≤ s.alloc_bytes_remaining_
  · left; rw [AllocateAligned_fast s bytes fresh h]
  · right
    rw [AllocateAligned_slow s bytes fresh h]
    by_cases hb : bytes > 1024
    · exact ⟨bytes, by rw [AllocateFallback_large s bytes fresh hb]⟩
    · exact ⟨4096, by rw [AllocateFallback_small s bytes fresh (by omega)]⟩

theorem runAligned_blocks_prefix (reqs : List Request) :
    ∀ s : Arena, ∃ l, (s.runAligned reqs).2.blocks_ = s.blocks_ ++ l := by
  induction reqs with
  | nil => intro s; exact ⟨[], by simp [Arena.runAligned]⟩
  | cons r rs ih =>
    intro s
    obtain ⟨l, hl⟩ := ih (s.AllocateAligned r.bytes r.fresh).2
    simp only [Arena.runAligned]
    rcases AllocateAligned_blocks s r.bytes r.fresh with h | ⟨n, h⟩
    · exact ⟨l, by rw [hl, h]⟩
    · exact ⟨[{ start := r.fresh, size := n }] ++ l, by rw [hl, h, List.append_assoc]⟩

/-- The three ways through `AllocateAligned`, field by field. -/
theorem AllocateAligned_cases (s : Arena) (bytes fresh : Nat) :
    (s.needed bytes ≤ s.alloc_bytes_remaining_ ∧
      (s.AllocateAligned bytes fresh).1 = s.alloc_ptr_ + s.slop ∧
      (s.AllocateAligned bytes fresh).2.alloc_ptr_ = s.alloc_ptr_ + s.needed bytes ∧
      (s.AllocateAligned bytes fresh).2.alloc_bytes_remaining_
        = s.alloc_bytes_remaining_ - s.needed bytes ∧
      (s.AllocateAligned bytes fresh).2.blocks_ = s.blocks_ ∧
      (s.AllocateAligned bytes fresh).2.memory_usage_ = s.memory_usage_) ∨
    (¬ s.needed bytes ≤ s.alloc_bytes_remaining_ ∧ bytes > 1024 ∧
      (s.AllocateAligned bytes fresh).1 = fresh ∧
      (s.AllocateAligned bytes fresh).2.alloc_ptr_ = s.alloc_ptr_ ∧
      (s.AllocateAligned bytes fresh).2.alloc_bytes_remaining_ = s.alloc_bytes_remaining_ ∧
      (s.AllocateAligned bytes fresh).2.blocks_
        = s.blocks_ ++ [{ start := fresh, size := bytes }] ∧
      (s.AllocateAligned bytes fresh).2.memory_usage_
        = (s.memory_usage_ + (bytes + 8)) % sizeModulus) ∨
    (¬ s.needed bytes ≤ s.alloc_bytes_remaining_ ∧ bytes ≤ 1024 ∧
      (s.AllocateAligned bytes fresh).1 = fresh ∧
      (s.AllocateAligned bytes fresh).2.alloc_ptr_ = fresh + bytes ∧
      (s.AllocateAligned bytes fresh).2.alloc_bytes_remaining_ = 4096 - bytes ∧
      (s.AllocateAligned bytes fresh).2.blocks_
        = s.blocks_ ++ [{ start := fresh, size := 4096 }] ∧
      (s.AllocateAligned bytes fresh).2.memory_usage_
        = (s.memory_usage_ + 4104) % sizeModulus) := by
  by_cases h : s.needed bytes ≤ s.alloc_bytes_remaining_
  · left
    rw [AllocateAligned_fast s bytes fresh h]
    exact ⟨h, rfl, rfl, rfl, rfl, rfl⟩
  · right
    rw [AllocateAligned_slow s bytes fresh h]
    by_cases hb : bytes > 1024
    · left
      rw [AllocateFallback_large s bytes fresh hb]
      exact ⟨h, hb, rfl, rfl, rfl, rfl, rfl⟩
    · right
      rw [AllocateFallback_small s bytes fresh (by omega)]
      exact ⟨h, by omega, rfl, rfl, rfl, rfl, rfl⟩

/-- One call keeps the invariant and gives a range clear of all earlier ones,
provided the block it acquires (if any) is disjoint from the blocks held. -/
theorem allocInv_step (s : Arena) (prev : List Allocation) (r : Request)
    (hinv : s.allocInv prev) (hb : r.bytes + 7 < 2 ^ 64)
    (hsep : List.Pairwise Block.separated (s.AllocateAligned r.bytes r.fresh).2.blocks_) :
    (s.AllocateAligned r.bytes r.fresh).2.allocInv (prev ++ [s.allocationOf r]) ∧
      ∀ x ∈ prev, x.separated (s.allocationOf r) := by
  obtain ⟨hblk, hclr, htail⟩ := hinv
  have hneed := needed_exact s r.bytes hb
  have hab : (s.allocationOf r).bytes = r.bytes := rfl
  have hap : (s.allocationOf r).ptr = (s.AllocateAligned r.bytes r.fresh).1 := rfl
  unfold Arena.allocInv Arena.tailInBlocks
  unfold Arena.tailInBlocks at htail
  rcases AllocateAligned_cases s r.bytes r.fresh with
    ⟨h, e1, e2, e3, e4, -⟩ | ⟨-, -, e1, e2, e3, e4, -⟩ | ⟨-, hsm, e1, e2, e3, e4, -⟩
  · -- fast path: the range is cut from the free tail
    rw [hneed] at h e2 e3
    rw [e4]
    refine ⟨⟨?_, ?_, ?_⟩, ?_⟩
    · intro a ha
      rcases List.mem_append.1 ha with ha | ha
      · exact hblk a ha
      · rw [List.mem_singleton] at ha
        subst ha
        unfold Allocation.inBlocks
        rcases htail with ⟨h0, h1⟩ | ⟨b, hbm, h1, h2⟩
        · left; omega
        · right; exact ⟨b, hbm, by omega, by omega⟩
    · intro a ha
      unfold Allocation.clearOfTail
      rcases List.mem_append.1 ha with ha | ha
      · have := hclr a ha
        unfold Allocation.clearOfTail at this
        omega
      · rw [List.mem_singleton] at ha
        subst ha
        omega
    · rcases htail with ⟨h0, h1⟩ | ⟨b, hbm, h1, h2⟩
      · left; omega
      · right; exact ⟨b, hbm, by omega, by omega⟩
    · intro x hx
      have := hclr x hx
      unfold Allocation.clearOfTail at this
      unfold Allocation.separated
      omega
  · -- fallback, dedicated block
    rw [e4] at hsep ⊢
    have hnew : ∀ b ∈ s.blocks_, b.separated { start := r.fresh, size := r.bytes } := by
      intro b hbm
      exact (List.pairwise_append.1 hsep).2.2 b hbm _ (List.mem_singleton.2 rfl)
    have hprev : ∀ x ∈ prev, x.separated (s.allocationOf r) := by
      intro x hx
      unfold Allocation.separated
      rcases hblk x hx with ⟨h0, h1⟩ | ⟨b, hbm, h1, h2⟩
      · omega
      · have := hnew b hbm
        unfold Block.separated at this
        simp only at this
        omega
    refine ⟨⟨?_, ?_, ?_⟩, hprev⟩
    · intro a ha
      rcases List.mem_append.1 ha with ha | ha
      · rcases hblk a ha with h0 | ⟨b, hbm, h1, h2⟩
        · exact Or.inl h0
        · exact Or.inr ⟨b, List.mem_append_left _ hbm, h1, h2⟩
      · rw [List.mem_singleton] at ha
        subst ha
        exact Or.inr ⟨{ start := r.fresh, size := r.bytes },
          List.mem_append_right _ (List.mem_singleton.2 rfl),
          by simp only; omega, by simp only; omega⟩
    · intro a ha
      unfold Allocation.clearOfTail
      rcases List.mem_append.1 ha with ha | ha
      · have := hclr a ha
        unfold Allocation.clearOfTail at this
        omega
      · rw [List.mem_singleton] at ha
        subst ha
        rcases htail with ⟨h0, h1⟩ | ⟨b, hbm, h1, h2⟩
        · omega
        · have := hnew b hbm
          unfold Block.separated at this
          simp only at this
          omega
    · rw [e2, e3]
      rcases htail with h0 | ⟨b, hbm, h1, h2⟩
      · exact Or.inl h0
      · exact Or.inr ⟨b, List.mem_append_left _ hbm, h1, h2⟩
  · -- fallback, new standard block
    rw [e4] at hsep ⊢
    have hnew : ∀ b ∈ s.blocks_, b.separated { start := r.fresh, size := 4096 } := by
      intro b hbm
      exact (List.pairwise_append.1 hsep).2.2 b hbm _ (List.mem_singleton.2 rfl)
    have hprev : ∀ x ∈ prev, x.separated (s.allocationOf r) := by
      intro x hx
      unfold Allocation.separated
      rcases hblk x hx with ⟨h0, h1⟩ | ⟨b, hbm, h1, h2⟩
      · omega
      · have := hnew b hbm
        unfold Block.separated at this
        simp only at this
        omega
    refine ⟨⟨?_, ?_, ?_⟩, hprev⟩
    · intro a ha
      rcases List.mem_append.1 ha with ha | ha
      · rcases hblk a ha with h0 | ⟨b, hbm, h1, h2⟩
        · exact Or.inl h0
        · exact Or.inr ⟨b, List.mem_append_left _ hbm, h1, h2⟩
      · rw [List.mem_singleton] at ha
        subst ha
        exact Or.inr ⟨{ start := r.fresh, size := 4096 },
          List.mem_append_right _ (List.mem_singleton.2 rfl),
          by simp only; omega, by simp only; omega⟩
    · intro a ha
      unfold Allocation.clearOfTail
      rcases List.mem_append.1 ha with ha | ha
      · rcases hblk a ha with ⟨h0, h1⟩ | ⟨b, hbm, h1, h2⟩
        · omega
        · have := hnew b hbm
          unfold Block.separated at this
          simp only at this
          omega
      · rw [List.mem_singleton] at ha
        subst ha
        omega
    · exact Or.inr ⟨{ start := r.fresh, size := 4096 },
        List.mem_append_right _ (List.mem_singleton.2 rfl),
        by simp only; omega, by simp only; omega⟩

theorem runAligned_pairwise_separated (reqs : List Request) :
    ∀ (s : Arena) (prev : List Allocation), s.allocInv prev →
      List.Pairwise Allocation.separated prev →
      (∀ r ∈ reqs, r.bytes + 7 < 2 ^ 64) →
      List.Pairwise Block.separated (s.runAligned reqs).2.blocks_ →
      List.Pairwise Allocation.separated (prev ++ (s.runAligned reqs).1) := by
  induction reqs with
  | nil =>
    intro s prev _ hp _ _
    simpa [Arena.runAligned] using hp
  | cons r rs ih =>
    intro s prev hinv hp hsz hblocks
    simp only [Arena.runAligned] at hblocks ⊢
    obtain ⟨l, hl⟩ := runAligned_blocks_prefix rs (s.AllocateAligned r.bytes r.fresh).2
    have hsep1 : List.Pairwise Block.separated (s.AllocateAligned r.bytes r.fresh).2.blocks_ := by
      rw [hl] at hblocks
      exact (List.pairwise_append.1 hblocks).1
    obtain ⟨hinv1, hnew⟩ := allocInv_step s prev r hinv (hsz r (List.mem_cons_self _ _)) hsep1
    have hp1 : List.Pairwise Allocation.separated (prev ++ [s.allocationOf r]) := by
      rw [List.pairwise_append]
      refine ⟨hp, List.pairwise_singleton _ _, ?_⟩
      intro x hx y hy
      rw [List.mem_singleton] at hy
      subst hy
      exact hnew x hx
    have := ih _ _ hinv1 hp1 (fun q hq => hsz q (List.mem_cons_of_mem _ hq)) hblocks
    simpa [List.append_assoc] using this

theorem ctor_allocInv : Arena.ctor.allocInv [] := by
  refine ⟨?_, ?_, Or.inl ⟨rfl, rfl⟩⟩ <;> intro a ha <;> cases ha

/-- C5. On a freshly constructed arena, for every sequence of `AllocateAligned`
calls whose sizes (zero included) satisfy `bytes + 7 < 2 ^ 64`, if the blocks
handed out by `new[]` (the entries of `blocks_`, each with the length asked for)
are pairwise disjoint, then the requested ranges `[p_i, p_i + bytes_i)` of two
distinct allocations share no address; more precisely one of the two ranges
ends before the other begins. -/
theorem runAligned_no_overlap (reqs : List Request)
    (hsz : ∀ r ∈ reqs, r.bytes + 7 < 2 ^ 64)
    (hblocks : List.Pairwise Block.separated (Arena.ctor.runAligned reqs).2.blocks_)
    (i j : Nat) (hi : i < (Arena.ctor.runAligned reqs).1.length)
    (hj : j < (Arena.ctor.runAligned reqs).1.length) (hij : i ≠ j) :
    ¬ ((Arena.ctor.runAligned reqs).1[i]).overlaps ((Arena.ctor.runAligned reqs).1[j]) ∧
      ((Arena.ctor.runAligned reqs).1[i]).separated ((Arena.ctor.runAligned reqs).1[j]) := by
  have hp := runAligned_pairwise_separated reqs Arena.ctor [] ctor_allocInv
    List.Pairwise.nil hsz hblocks
  rw [List.nil_append] at hp
  have key : ((Arena.ctor.runAligned reqs).1[i]).separated ((Arena.ctor.runAligned reqs).1[j]) := by
    rcases Nat.lt_or_gt_of_ne hij with hlt | hgt
    · exact List.pairwise_iff_getElem.1 hp i j hi hj hlt
    · have := List.pairwise_iff_getElem.1 hp j i hj hi hgt
      exact this.symm
  exact ⟨separated_not_overlaps _ _ key, key⟩

theorem runAligned_no_overlap_witness :
    (∀ r ∈ sampleRequests, r.bytes + 7 < 2 ^ 64) ∧
      List.Pairwise Block.separated (Arena.ctor.runAligned sampleRequests).2.blocks_ ∧
      ¬ Allocation.overlaps { ptr := 120, bytes := 0, burned := 4 }
          { ptr := 120, bytes := 2000, burned := 0 } ∧
      ¬ Allocation.overlaps { ptr := 120, bytes := 2000, burned := 0 }
          { ptr := 16384, bytes := 4000, burned := 0 } :=
  ⟨by decide, by decide,
    (runAligned_no_overlap sampleRequests (by decide) (by decide) 3 4 (by decide) (by decide)
      (by decide)).1,
    (runAligned_no_overlap sampleRequests (by decide) (by decide) 4 5 (by decide) (by decide)
      (by decide)).1⟩

/-! ## C6: room behind the returned address on the fast path -/

/-- C6, as amended. In a state whose cursor lies in the standard block
`[b, b + kBlockSize)` with `alloc_bytes_remaining_ = b + kBlockSize - alloc_ptr_`,
for every `bytes` whose sum with `slop` does not wrap (`bytes + slop < 2 ^ 64`):
if `AllocateAligned` serves the request from the current block, the returned
range lies in the block, `b <= result` and `result + bytes <= b + kBlockSize`. -/
theorem AllocateAligned_fits_block (s : Arena) (bytes fresh b : Nat)
    (hlo : b ≤ s.alloc_ptr_) (hhi : s.alloc_ptr_ ≤ b + kBlockSize)
    (hcap : s.alloc_bytes_remaining_ = b + kBlockSize - s.alloc_ptr_)
    (hfast : s.needed bytes ≤ s.alloc_bytes_remaining_)
    (hwrap : bytes + s.slop < 2 ^ 64) :
    b ≤ (s.AllocateAligned bytes fresh).1 ∧
      (s.AllocateAligned bytes fresh).1 + bytes ≤ b + kBlockSize := by
  have hneed : s.needed bytes = bytes + s.slop := by
    unfold Arena.needed sizeModulus
    exact Nat.mod_eq_of_lt hwrap
  rw [AllocateAligned_fast s bytes fresh hfast]
  rw [hneed] at hfast
  constructor
  · show b ≤ s.alloc_ptr_ + s.slop
    omega
  · show s.alloc_ptr_ + s.slop + bytes ≤ b + kBlockSize
    omega

theorem AllocateAligned_fits_block_witness :
    (oneByteState.AllocateAligned 4088 0).1 + 4088 ≤ 8 + kBlockSize :=
  (AllocateAligned_fits_block oneByteState 4088 0 8
    (by decide) (by decide) (by decide) (by decide) (by decide)).2

/-- C6 fails as stated. After `AllocateAligned(1)` on the fresh arena (block at
address 8) the cursor is 9 with 4095 bytes left in `[8, 4104)`:
`oneByteState`. The request `bytes = 2 ^ 64 - 1` then has `slop = 7` and
`needed = 6` in `size_t`, is served from the current block, returns 16, and
`16 + bytes` is far beyond the end 4104 of the block. -/
theorem AllocateAligned_wraps_counterexample :
    (Arena.ctor.AllocateAligned 1 8).2 = oneByteState ∧
      (8 ≤ oneByteState.alloc_ptr_ ∧ oneByteState.alloc_ptr_ ≤ 8 + kBlockSize ∧
        oneByteState.alloc_bytes_remaining_ = 8 + kBlockSize - oneByteState.alloc_ptr_) ∧
      2 ^ 64 - 1 < sizeModulus ∧
      oneByteState.slop = 7 ∧
      oneByteState.needed (2 ^ 64 - 1) = 6 ∧
      oneByteState.needed (2 ^ 64 - 1) ≤ oneByteState.alloc_bytes_remaining_ ∧
      (oneByteState.AllocateAligned (2 ^ 64 - 1) 0).1 = 16 ∧
      (oneByteState.AllocateAligned (2 ^ 64 - 1) 0).2.alloc_ptr_ = 15 ∧
      (oneByteState.AllocateAligned (2 ^ 64 - 1) 0).2.alloc_bytes_remaining_ = 4089 ∧
      ¬ ((oneByteState.AllocateAligned (2 ^ 64 - 1) 0).1 + (2 ^ 64 - 1) ≤ 8 + kBlockSize) := by
  decide

/-! ## Blocks that lie in the address space account for less than `2 ^ 64` -/

/-- The two ways through `AllocateFallback`, field by field. -/
theorem AllocateFallback_cases (s : Arena) (bytes fresh : Nat) :
    (bytes > 1024 ∧
      (s.AllocateFallback bytes fresh).1 = fresh ∧
      (s.AllocateFallback bytes fresh).2.alloc_ptr_ = s.alloc_ptr_ ∧
      (s.AllocateFallback bytes fresh).2.alloc_bytes_remaining_ = s.alloc_bytes_remaining_ ∧
      (s.AllocateFallback bytes fresh).2.blocks_
        = s.blocks_ ++ [{ start := fresh, size := bytes }] ∧
      (s.AllocateFallback bytes fresh).2.memory_usage_
        = (s.memory_usage_ + (bytes + 8)) % sizeModulus) ∨
    (bytes ≤ 1024 ∧
      (s.AllocateFallback bytes fresh).1 = fresh ∧
      (s.AllocateFallback bytes fresh).2.alloc_ptr_ = fresh + bytes ∧
      (s.AllocateFallback bytes fresh).2.alloc_bytes_remaining_ = 4096 - bytes ∧
      (s.AllocateFallback bytes fresh).2.blocks_
        = s.blocks_ ++ [{ start := fresh, size := 4096 }] ∧
      (s.AllocateFallback bytes fresh).2.memory_usage_
        = (s.memory_usage_ + 4104) % sizeModulus) := by
  by_cases hb : bytes > 1024
  · left
    rw [AllocateFallback_large s bytes fresh hb]
    exact ⟨hb, rfl, rfl, rfl, rfl, rfl⟩
  · right
    rw [AllocateFallback_small s bytes fresh (by omega)]
    exact ⟨by omega, rfl, rfl, rfl, rfl, rfl⟩

theorem fallbackBlockBytes_eq (bytes : Nat) :
    Arena.fallbackBlockBytes bytes = if bytes > 1024 then bytes else 4096 := by
  unfold Arena.fallbackBlockBytes kBlockSize
  rfl

theorem blockTotal_append (l : List Block) (b : Block) :
    blockTotal (l ++ [b]) = blockTotal l + (b.size + sizeofPtr) := by
  simp [blockTotal]

theorem blockBytes_append (l : List Block) (b : Block) :
    blockBytes (l ++ [b]) = blockBytes l + b.size := by
  simp [blockBytes]

theorem blockTotal_eq (l : List Block) :
    blockTotal l = blockBytes l + sizeofPtr * l.length := by
  induction l with
  | nil => simp [blockTotal, blockBytes]
  | cons b bs ih =>
    simp only [blockTotal, blockBytes, List.map_cons, List.sum_cons, List.length_cons] at ih ⊢
    rw [ih]
    unfold sizeofPtr
    omega

theorem mem_cellsOf (l : List Block) (x : Nat) :
    x ∈ cellsOf l ↔ ∃ b ∈ l, b.start ≤ x ∧ x < b.start + b.size := by
  induction l with
  | nil => simp [cellsOf]
  | cons b bs ih =>
    simp only [cellsOf, Finset.mem_union, ih, Block.cells, Finset.mem_Ico, List.mem_cons]
    constructor
    · rintro (h | ⟨c, hc, h⟩)
      · exact ⟨b, Or.inl rfl, h⟩
      · exact ⟨c, Or.inr hc, h⟩
    · rintro ⟨c, hc | hc, h⟩
      · left; rw [← hc]; exact h
      · right; exact ⟨c, hc, h⟩

/-- Pairwise disjoint blocks cover as many addresses as their lengths sum to. -/
theorem card_cellsOf (l : List Block) (h : List.Pairwise Block.separated l) :
    (cellsOf l).card = blockBytes l := by
  induction l with
  | nil => simp [cellsOf, blockBytes]
  | cons b bs ih =>
    rw [List.pairwise_cons] at h
    have hd : Disjoint b.cells (cellsOf bs) := by
      rw [Finset.disjoint_left]
      intro x hx hx2
      rw [mem_cellsOf] at hx2
      obtain ⟨c, hc, h1, h2⟩ := hx2
      have hs := h.1 c hc
      simp only [Block.cells, Finset.mem_Ico] at hx
      unfold Block.separated at hs
      omega
    simp only [cellsOf, blockBytes, List.map_cons, List.sum_cons]
    rw [Finset.card_union_of_disjoint hd, ih h.2]
    simp [Block.cells, blockBytes]

/-- Pairwise disjoint blocks between address 1 and address `N` have lengths
that sum to less than `N`. -/
theorem blockBytes_lt (l : List Block) (N : Nat) (hN : 0 < N)
    (h : List.Pairwise Block.separated l)
    (hin : ∀ b ∈ l, 0 < b.start ∧ b.start + b.size ≤ N) : blockBytes l < N := by
  have hsub : cellsOf l ⊆ Finset.Ico 1 N := by
    intro x hx
    rw [mem_cellsOf] at hx
    obtain ⟨b, hb, h1, h2⟩ := hx
    have := hin b hb
    rw [Finset.mem_Ico]
    omega
  have hcard := Finset.card_le_card hsub
  rw [card_cellsOf l h, Nat.card_Ico] at hcard
  omega

/-- The counter cannot wrap: what the blocks of an arena in the address space
account for, lengths plus `sizeof(char*)` each, is below `2 ^ 64`. -/
theorem blockTotal_lt (s : Arena) (storage : Nat) (h : s.inAddressSpace storage) :
    blockTotal s.blocks_ < sizeModulus := by
  have hb := blockBytes_lt (s.blocksStorage storage :: s.blocks_) sizeModulus (by decide) h.1 h.2
  rw [blockTotal_eq]
  simp only [blockBytes, List.map_cons, List.sum_cons, Arena.blocksStorage] at hb
  unfold blockBytes
  omega

/-- The counter agrees with the blocks held, as a `size_t`: kept by
`AllocateFallback`. -/
theorem usage_AllocateFallback (s : Arena) (bytes fresh : Nat)
    (h : s.memory_usage_ = blockTotal s.blocks_ % sizeModulus) :
    (s.AllocateFallback bytes fresh).2.memory_usage_
      = blockTotal (s.AllocateFallback bytes fresh).2.blocks_ % sizeModulus := by
  rcases AllocateFallback_cases s bytes fresh with
    ⟨-, -, -, -, e4, e5⟩ | ⟨-, -, -, -, e4, e5⟩
  · rw [e4, e5, blockTotal_append, h]
    unfold sizeofPtr sizeModulus
    simp only
    omega
  · rw [e4, e5, blockTotal_append, h]
    unfold sizeofPtr sizeModulus
    simp only
    omega

/-- The same, kept by `AllocateAligned`. -/
theorem usage_AllocateAligned (s : Arena) (bytes fresh : Nat)
    (h : s.memory_usage_ = blockTotal s.blocks_ % sizeModulus) :
    (s.AllocateAligned bytes fresh).2.memory_usage_
      = blockTotal (s.AllocateAligned bytes fresh).2.blocks_ % sizeModulus := by
  by_cases hf : s.needed bytes ≤ s.alloc_bytes_remaining_
  · rw [AllocateAligned_fast s bytes fresh hf]
    exact h
  · rw [AllocateAligned_slow s bytes fresh hf]
    exact usage_AllocateFallback s bytes fresh h

/-! ## C7: the usage counter does not go down -/

/-- Let `s` be a state whose counter agrees with the blocks it holds
(`memory_usage_` is the `size_t` value of the sum over `blocks_` of size plus
`sizeof(char*)`). For every call after which the memory held lies in the
address space, the counter does not go down, and it grows by at least `bytes`
when the call acquired a block. -/
theorem usage_monotone_step (s : Arena) (bytes fresh storage : Nat)
    (hcount : s.memory_usage_ = blockTotal s.blocks_ % sizeModulus) :
    ((s.AllocateAligned bytes fresh).2.inAddressSpace storage →
      s.memory_usage_ ≤ (s.AllocateAligned bytes fresh).2.memory_usage_ ∧
      ((s.AllocateAligned bytes fresh).2.blocks_ ≠ s.blocks_ →
        s.memory_usage_ + bytes ≤ (s.AllocateAligned bytes fresh).2.memory_usage_)) ∧
    ((s.AllocateFallback bytes fresh).2.inAddressSpace storage →
      s.memory_usage_ ≤ (s.AllocateFallback bytes fresh).2.memory_usage_ ∧
      (s.AllocateFallback bytes fresh).2.blocks_ ≠ s.blocks_ ∧
      s.memory_usage_ + bytes ≤ (s.AllocateFallback bytes fresh).2.memory_usage_) := by
  have hF : (s.AllocateFallback bytes fresh).2.inAddressSpace storage →
      s.memory_usage_ ≤ (s.AllocateFallback bytes fresh).2.memory_usage_ ∧
      (s.AllocateFallback bytes fresh).2.blocks_ ≠ s.blocks_ ∧
      s.memory_usage_ + bytes ≤ (s.AllocateFallback bytes fresh).2.memory_usage_ := by
    intro hsp
    have hlt := blockTotal_lt _ storage hsp
    have hu := usage_AllocateFallback s bytes fresh hcount
    rw [Nat.mod_eq_of_lt hlt] at hu
    rw [hu, hcount]
    rcases AllocateFallback_cases s bytes fresh with
      ⟨hb, -, -, -, e4, -⟩ | ⟨hb, -, -, -, e4, -⟩
    · rw [e4, blockTotal_append] at hlt ⊢
      simp only at hlt ⊢
      rw [Nat.mod_eq_of_lt (by omega)]
      exact ⟨by omega, by simp, by omega⟩
    · rw [e4, blockTotal_append] at hlt ⊢
      simp only at hlt ⊢
      rw [Nat.mod_eq_of_lt (by omega)]
      exact ⟨by omega, by simp, by omega⟩
  refine ⟨?_, hF⟩
  intro hsp
  by_cases h : s.needed bytes ≤ s.alloc_bytes_remaining_
  · rw [AllocateAligned_fast s bytes fresh h]
    exact ⟨le_refl _, fun hne => absurd rfl hne⟩
  · rw [AllocateAligned_slow s bytes fresh h] at hsp ⊢
    exact ⟨(hF hsp).1, fun _ => (hF hsp).2.2⟩

theorem usage_run (calls : List Call) :
    ∀ t : Tracked, t.arena.memory_usage_ = blockTotal t.arena.blocks_ % sizeModulus →
      (t.run calls).arena.memory_usage_
        = blockTotal (t.run calls).arena.blocks_ % sizeModulus := by
  induction calls with
  | nil => intro t h; exact h
  | cons c cs ih =>
    intro t h
    apply ih (t.step c)
    cases c with
    | aligned bytes fresh => exact usage_AllocateAligned t.arena bytes fresh h
    | fallback bytes fresh => exact usage_AllocateFallback t.arena bytes fresh h

/-- C7. In every state the arena reaches from its constructor by calls of
`AllocateAligned` and `AllocateFallback`, and for every further call of
`AllocateAligned` or `AllocateFallback` (after which the memory held lies in the
address space), `memory_usage_` after the call is at least its value before the
call, and at least that value plus `bytes` whenever the call acquired a new
block, which `AllocateFallback` always does. -/
theorem memory_usage_monotone (calls : List Call) (bytes fresh storage : Nat) :
    (((Tracked.ctor.run calls).arena.AllocateAligned bytes fresh).2.inAddressSpace storage →
      (Tracked.ctor.run calls).arena.memory_usage_
        ≤ ((Tracked.ctor.run calls).arena.AllocateAligned bytes fresh).2.memory_usage_ ∧
      (((Tracked.ctor.run calls).arena.AllocateAligned bytes fresh).2.blocks_
          ≠ (Tracked.ctor.run calls).arena.blocks_ →
        (Tracked.ctor.run calls).arena.memory_usage_ + bytes
          ≤ ((Tracked.ctor.run calls).arena.AllocateAligned bytes fresh).2.memory_usage_)) ∧
    (((Tracked.ctor.run calls).arena.AllocateFallback bytes fresh).2.inAddressSpace storage →
      (Tracked.ctor.run calls).arena.memory_usage_
        ≤ ((Tracked.ctor.run calls).arena.AllocateFallback bytes fresh).2.memory_usage_ ∧
      ((Tracked.ctor.run calls).arena.AllocateFallback bytes fresh).2.blocks_
        ≠ (Tracked.ctor.run calls).arena.blocks_ ∧
      (Tracked.ctor.run calls).arena.memory_usage_ + bytes
        ≤ ((Tracked.ctor.run calls).arena.AllocateFallback bytes fresh).2.memory_usage_) :=
  usage_monotone_step (Tracked.ctor.run calls).arena bytes fresh storage
    (usage_run calls Tracked.ctor (by decide))

theorem memory_usage_monotone_witness :
    ((Tracked.ctor.run sampleCalls).arena.AllocateFallback 2000 32768).2.inAddressSpace 65536 ∧
      (Tracked.ctor.run sampleCalls).arena.memory_usage_ + 2000
        ≤ ((Tracked.ctor.run sampleCalls).arena.AllocateFallback 2000 32768).2.memory_usage_ ∧
      ((Tracked.ctor.run sampleCalls).arena.AllocateAligned 4090 32768).2.inAddressSpace 65536 ∧
      (Tracked.ctor.run sampleCalls).arena.memory_usage_ + 4090
        ≤ ((Tracked.ctor.run sampleCalls).arena.AllocateAligned 4090 32768).2.memory_usage_ ∧
      (Tracked.ctor.run sampleCalls).arena.memory_usage_
        ≤ ((Tracked.ctor.run sampleCalls).arena.AllocateAligned 100 32768).2.memory_usage_ :=
  ⟨by decide,
    ((memory_usage_monotone sampleCalls 2000 32768 65536).2 (by decide)).2.2,
    by decide,
    ((memory_usage_monotone sampleCalls 4090 32768 65536).1 (by decide)).2 (by decide),
    ((memory_usage_monotone sampleCalls 100 32768 65536).1 (by decide)).1⟩

/-! ## C8: the cursor stays in the current standard block -/

theorem fastPath_eq_true (s : Arena) (bytes : Nat) :
    s.fastPath bytes = true ↔ s.needed bytes ≤ s.alloc_bytes_remaining_ := by
  unfold Arena.fastPath
  exact decide_eq_true_iff

theorem installsStandard_aligned (s : Arena) (bytes fresh : Nat) :
    s.installsStandard (.aligned bytes fresh) = true ↔
      ¬ s.needed bytes ≤ s.alloc_bytes_remaining_ ∧ bytes ≤ 1024 := by
  unfold Arena.installsStandard
  rw [Bool.and_eq_true, Bool.not_eq_true', ← Bool.not_eq_true, fastPath_eq_true,
    decide_eq_true_iff]
  unfold kBlockSize
  constructor <;> rintro ⟨h1, h2⟩ <;> exact ⟨h1, by omega⟩

theorem installsStandard_fallback (s : Arena) (bytes fresh : Nat) :
    s.installsStandard (.fallback bytes fresh) = true ↔ bytes ≤ 1024 := by
  unfold Arena.installsStandard
  rw [decide_eq_true_iff]
  unfold kBlockSize
  constructor <;> intro h <;> omega

/-- One call keeps the cursor invariant. -/
theorem cursorInv_step (t : Tracked) (c : Call) (h : t.cursorInv) : (t.step c).cursorInv := by
  unfold Tracked.cursorInv at h ⊢
  unfold Tracked.step
  cases c with
  | aligned bytes fresh =>
    have hi := installsStandard_aligned t.arena bytes fresh
    simp only [Arena.step, Call.fresh]
    rcases AllocateAligned_cases t.arena bytes fresh with
      ⟨hf, -, e2, e3, e4, -⟩ | ⟨hs, hb, -, e2, e3, e4, -⟩ | ⟨hs, hb, -, e2, e3, e4, -⟩
    · have hno : ¬ t.arena.installsStandard (.aligned bytes fresh) = true := by
        rw [hi]; exact fun hh => hh.1 hf
      rw [if_neg hno, e2, e3, e4]
      rcases h with ⟨h0, h1, h2⟩ | ⟨b, h0, hm, h1, h2, h3⟩
      · left; exact ⟨h0, by omega, by omega⟩
      · right; exact ⟨b, h0, hm, by omega, by omega, by omega⟩
    · have hno : ¬ t.arena.installsStandard (.aligned bytes fresh) = true := by
        rw [hi]; intro hh; omega
      rw [if_neg hno, e2, e3, e4]
      rcases h with h0 | ⟨b, h0, hm, h1, h2, h3⟩
      · exact Or.inl h0
      · exact Or.inr ⟨b, h0, List.mem_append_left _ hm, h1, h2, h3⟩
    · have hyes : t.arena.installsStandard (.aligned bytes fresh) = true := by
        rw [hi]; exact ⟨hs, hb⟩
      rw [if_pos hyes, e2, e3, e4]
      right
      exact ⟨fresh, rfl, List.mem_append_right _ (List.mem_singleton.2 rfl),
        by omega, by unfold kBlockSize; omega, by unfold kBlockSize; omega⟩
  | fallback bytes fresh =>
    have hi := installsStandard_fallback t.arena bytes fresh
    simp only [Arena.step, Call.fresh]
    rcases AllocateFallback_cases t.arena bytes fresh with
      ⟨hb, -, e2, e3, e4, -⟩ | ⟨hb, -, e2, e3, e4, -⟩
    · have hno : ¬ t.arena.installsStandard (.fallback bytes fresh) = true := by
        rw [hi]; omega
      rw [if_neg hno, e2, e3, e4]
      rcases h with h0 | ⟨b, h0, hm, h1, h2, h3⟩
      · exact Or.inl h0
      · exact Or.inr ⟨b, h0, List.mem_append_left _ hm, h1, h2, h3⟩
    · have hyes : t.arena.installsStandard (.fallback bytes fresh) = true := by
        rw [hi]; exact hb
      rw [if_pos hyes, e2, e3, e4]
      right
      exact ⟨fresh, rfl, List.mem_append_right _ (List.mem_singleton.2 rfl),
        by omega, by unfold kBlockSize; omega, by unfold kBlockSize; omega⟩

theorem cursorInv_run (calls : List Call) :
    ∀ t : Tracked, t.cursorInv → (t.run calls).cursorInv := by
  induction calls with
  | nil => intro t h; exact h
  | cons c cs ih =>
    intro t h
    exact ih (t.step c) (cursorInv_step t c h)

/-- A call that acquires a block without installing a standard one (the block is
a dedicated one) leaves the cursor and the remaining capacity as they were. -/
theorem dedicated_keeps_cursor (s : Arena) (c : Call)
    (hded : s.installsStandard c = false) (hblk : (s.step c).blocks_ ≠ s.blocks_) :
    (s.step c).alloc_ptr_ = s.alloc_ptr_ ∧
      (s.step c).alloc_bytes_remaining_ = s.alloc_bytes_remaining_ := by
  have hno : ¬ s.installsStandard c = true := by rw [hded]; exact Bool.false_ne_true
  cases c with
  | aligned bytes fresh =>
    rw [installsStandard_aligned] at hno
    simp only [Arena.step] at hblk ⊢
    rcases AllocateAligned_cases s bytes fresh with
      ⟨-, -, -, -, e4, -⟩ | ⟨-, -, -, e2, e3, -, -⟩ | ⟨hs, hb, -, -, -, -, -⟩
    · exact absurd e4 hblk
    · exact ⟨e2, e3⟩
    · exact absurd ⟨hs, hb⟩ hno
  | fallback bytes fresh =>
    rw [installsStandard_fallback] at hno
    simp only [Arena.step] at hblk ⊢
    rcases AllocateFallback_cases s bytes fresh with
      ⟨-, -, e2, e3, -, -⟩ | ⟨hb, -, -, -, -, -⟩
    · exact ⟨e2, e3⟩
    · exact absurd hb hno

/-- C8. In every state reached from the freshly constructed arena by calls of
`AllocateAligned` and `AllocateFallback`, either the cursor is unset
(`alloc_ptr_` null, `alloc_bytes_remaining_ = 0`, no standard block installed
yet) or, with `b` the start of the standard block installed most recently, that
block of `kBlockSize = 4096` bytes is in `blocks_`,
`b <= alloc_ptr_ <= b + 4096` and `alloc_bytes_remaining_ = b + 4096 - alloc_ptr_`.
A further call that acquires a dedicated block changes neither `alloc_ptr_` nor
`alloc_bytes_remaining_`, so the pair never refers to a dedicated block. -/
theorem reachable_cursor_in_standard_block (calls : List Call) :
    ((Tracked.ctor.run calls).standard = none ∧
        (Tracked.ctor.run calls).arena.alloc_ptr_ = 0 ∧
        (Tracked.ctor.run calls).arena.alloc_bytes_remaining_ = 0 ∨
      ∃ b, (Tracked.ctor.run calls).standard = some b ∧
        { start := b, size := 4096 } ∈ (Tracked.ctor.run calls).arena.blocks_ ∧
        b ≤ (Tracked.ctor.run calls).arena.alloc_ptr_ ∧
        (Tracked.ctor.run calls).arena.alloc_ptr_ ≤ b + 4096 ∧
        (Tracked.ctor.run calls).arena.alloc_bytes_remaining_
          = b + 4096 - (Tracked.ctor.run calls).arena.alloc_ptr_) ∧
    ∀ c : Call, (Tracked.ctor.run calls).arena.installsStandard c = false →
      ((Tracked.ctor.run calls).arena.step c).blocks_ ≠ (Tracked.ctor.run calls).arena.blocks_ →
      ((Tracked.ctor.run calls).arena.step c).alloc_ptr_
          = (Tracked.ctor.run calls).arena.alloc_ptr_ ∧
        ((Tracked.ctor.run calls).arena.step c).alloc_bytes_remaining_
          = (Tracked.ctor.run calls).arena.alloc_bytes_remaining_ := by
  refine ⟨?_, fun c => dedicated_keeps_cursor _ c⟩
  have h := cursorInv_run calls Tracked.ctor (Or.inl ⟨rfl, rfl, rfl⟩)
  exact h

/-! ## C9: what a block transition abandons -/

/-- With the cursor in a block of 4096 bytes that starts at a multiple of 8, a
small request that does not fit leaves at most 1023 bytes behind. -/
theorem abandoned_le (s : Arena) (bytes b : Nat) (halign : b % 8 = 0)
    (hlo : b ≤ s.alloc_ptr_) (hcap : s.alloc_ptr_ + s.alloc_bytes_remaining_ = b + 4096)
    (hslow : ¬ s.needed bytes ≤ s.alloc_bytes_remaining_) (hsmall : bytes ≤ 1024) :
    s.alloc_bytes_remaining_ ≤ 1023 := by
  have hneed := needed_exact s bytes (by omega)
  rw [hneed, slop_eq] at hslow
  split at hslow <;> omega

/-- C9. Let the cursor be unset, or lie in a block `[b, b + 4096)` whose start
`b` is a multiple of 8, with `alloc_bytes_remaining_ = b + 4096 - alloc_ptr_`.
Whenever `AllocateAligned(bytes)` falls back with `bytes <= kBlockSize / 4`, so
that a new standard block is installed, the capacity left behind in the previous
block is at most `kBlockSize / 4 - 1 = 1023` bytes. -/
theorem AllocateAligned_abandons_at_most (s : Arena) (bytes fresh : Nat)
    (hinv : (s.alloc_ptr_ = 0 ∧ s.alloc_bytes_remaining_ = 0) ∨
      ∃ b, b % 8 = 0 ∧ b ≤ s.alloc_ptr_ ∧ s.alloc_ptr_ ≤ b + kBlockSize ∧
        s.alloc_bytes_remaining_ = b + kBlockSize - s.alloc_ptr_)
    (hslow : ¬ s.needed bytes ≤ s.alloc_bytes_remaining_)
    (hsmall : bytes ≤ kBlockSize / 4) :
    ((s.AllocateAligned bytes fresh).2.blocks_
        = s.blocks_ ++ [{ start := fresh, size := kBlockSize }] ∧
      (s.AllocateAligned bytes fresh).2.alloc_ptr_ = fresh + bytes) ∧
    kBlockSize / 4 - 1 = 1023 ∧
    s.alloc_bytes_remaining_ ≤ kBlockSize / 4 - 1 := by
  have hsm : bytes ≤ 1024 := by unfold kBlockSize at hsmall; omega
  refine ⟨?_, by decide, ?_⟩
  · rw [AllocateAligned_slow s bytes fresh hslow, AllocateFallback_small s bytes fresh hsm]
    exact ⟨rfl, rfl⟩
  · show s.alloc_bytes_remaining_ ≤ 4096 / 4 - 1
    rcases hinv with ⟨-, h0⟩ | ⟨b, ha, hlo, hhi, hcap⟩
    · omega
    · unfold kBlockSize at hhi hcap
      have := abandoned_le s bytes b ha hlo (by omega) hslow hsm
      omega

theorem AllocateAligned_abandons_at_most_witness :
    ({ alloc_ptr_ := 3081, alloc_bytes_remaining_ := 1023,
       blocks_ := [{ start := 8, size := 4096 }], memory_usage_ := 4104 } : Arena).alloc_bytes_remaining_
      ≤ kBlockSize / 4 - 1 :=
  (AllocateAligned_abandons_at_most
    { alloc_ptr_ := 3081, alloc_bytes_remaining_ := 1023,
      blocks_ := [{ start := 8, size := 4096 }], memory_usage_ := 4104 } 1024 8192
    (Or.inr ⟨8, by decide, by decide, by decide, by decide⟩) (by decide) (by decide)).2.2

/-! ## C10: wasted bytes over a run of small requests -/

theorem requestedBytes_cons (a : Allocation) (l : List Allocation) :
    requestedBytes (a :: l) = a.bytes + requestedBytes l := by
  simp [requestedBytes]

theorem burnedSlop_cons (a : Allocation) (l : List Allocation) :
    burnedSlop (a :: l) = a.burned + burnedSlop l := by
  simp [burnedSlop]

/-- Accounting over a run of small requests from a state in which `A` bytes were
requested and `S` bytes of padding burned so far. -/
theorem waste_accounting (reqs : List Request) :
    ∀ (s : Arena) (A S : Nat), s.alignedCursor →
      (∀ r ∈ reqs, r.bytes ≤ 1024) → (∀ r ∈ reqs, r.fresh % 8 = 0) →
      (s.blocks_.length + reqs.length) * 4104 < 2 ^ 64 →
      (∀ b ∈ s.blocks_, b.size = 4096) →
      s.memory_usage_ = 4104 * s.blocks_.length →
      A + S + s.alloc_bytes_remaining_ ≤ 4096 * s.blocks_.length →
      4096 * s.blocks_.length ≤ A + S + s.alloc_bytes_remaining_ + 1023 * s.blocks_.length →
      (∀ b ∈ (s.runAligned reqs).2.blocks_, b.size = 4096) ∧
      (s.runAligned reqs).2.memory_usage_ = 4104 * (s.runAligned reqs).2.blocks_.length ∧
      (A + requestedBytes (s.runAligned reqs).1) + (S + burnedSlop (s.runAligned reqs).1)
          + (s.runAligned reqs).2.alloc_bytes_remaining_
        ≤ 4096 * (s.runAligned reqs).2.blocks_.length ∧
      4096 * (s.runAligned reqs).2.blocks_.length
        ≤ (A + requestedBytes (s.runAligned reqs).1) + (S + burnedSlop (s.runAligned reqs).1)
          + (s.runAligned reqs).2.alloc_bytes_remaining_
          + 1023 * (s.runAligned reqs).2.blocks_.length := by
  induction reqs with
  | nil =>
    intro s A S _ _ _ _ hsz hu h1 h2
    simp only [Arena.runAligned, requestedBytes, burnedSlop, List.map_nil, List.sum_nil,
      Nat.add_zero]
    exact ⟨hsz, hu, h1, h2⟩
  | cons r rs ih =>
    intro s A S hcur hsmall hfresh hlen hsz hu h1 h2
    have hb : r.bytes ≤ 1024 := hsmall r (List.mem_cons_self _ _)
    have hfr : r.fresh % 8 = 0 := hfresh r (List.mem_cons_self _ _)
    have hneed := needed_exact s r.bytes (by omega)
    have hslop := slop_lt s
    simp only [Arena.runAligned, requestedBytes_cons, burnedSlop_cons]
    simp only [List.length_cons] at hlen
    have hab : (s.allocationOf r).bytes = r.bytes := rfl
    have habu : (s.allocationOf r).burned = if s.fastPath r.bytes then s.slop else 0 := rfl
    rw [hab, habu]
    rcases AllocateAligned_cases s r.bytes r.fresh with
      ⟨hf, -, e2, e3, e4, e5⟩ | ⟨-, hbig, -, -, -, -, -⟩ | ⟨hs, -, -, e2, e3, e4, e5⟩
    · -- fast path
      rw [if_pos ((fastPath_eq_true s r.bytes).2 hf)]
      rw [hneed] at hf e2 e3
      have hcur1 : (s.AllocateAligned r.bytes r.fresh).2.alignedCursor := by
        unfold Arena.alignedCursor at hcur ⊢
        rw [e2, e3]
        rcases hcur with ⟨h0, h3⟩ | ⟨b, ha, hlo, hcap⟩
        · left; omega
        · right; exact ⟨b, ha, by omega, by omega⟩
      have := ih (s.AllocateAligned r.bytes r.fresh).2 (A + r.bytes) (S + s.slop) hcur1
        (fun q hq => hsmall q (List.mem_cons_of_mem _ hq))
        (fun q hq => hfresh q (List.mem_cons_of_mem _ hq))
        (by rw [e4]; omega) (by rw [e4]; exact hsz) (by rw [e5, e4]; exact hu)
        (by rw [e3, e4]; omega) (by rw [e3, e4]; omega)
      obtain ⟨g0, g1, g2, g3⟩ := this
      exact ⟨g0, g1, by omega, by omega⟩
    · omega
    · -- fallback: a new standard block
      have hnf : ¬ s.fastPath r.bytes = true := by rw [fastPath_eq_true]; exact hs
      rw [if_neg hnf]
      have hrem : s.alloc_bytes_remaining_ ≤ 1023 := by
        unfold Arena.alignedCursor at hcur
        rcases hcur with ⟨-, h3⟩ | ⟨b, ha, hlo, hcap⟩
        · omega
        · unfold kBlockSize at hcap
          exact abandoned_le s r.bytes b ha hlo hcap hs hb
      have hlen1 : (s.blocks_ ++ [({ start := r.fresh, size := 4096 } : Block)]).length
          = s.blocks_.length + 1 := by simp
      have hcur1 : (s.AllocateAligned r.bytes r.fresh).2.alignedCursor := by
        unfold Arena.alignedCursor
        rw [e2, e3]
        right
        exact ⟨r.fresh, hfr, by omega, by unfold kBlockSize; omega⟩
      have hu1 : (s.AllocateAligned r.bytes r.fresh).2.memory_usage_
          = 4104 * (s.AllocateAligned r.bytes r.fresh).2.blocks_.length := by
        rw [e5, e4, hlen1, hu]
        unfold sizeModulus
        omega
      have := ih (s.AllocateAligned r.bytes r.fresh).2 (A + r.bytes) (S + 0) hcur1
        (fun q hq => hsmall q (List.mem_cons_of_mem _ hq))
        (fun q hq => hfresh q (List.mem_cons_of_mem _ hq))
        (by rw [e4, hlen1]; omega)
        (by
          rw [e4]
          intro b hbm
          rcases List.mem_append.1 hbm with hbm | hbm
          · exact hsz b hbm
          · rw [List.mem_singleton] at hbm
            rw [hbm])
        hu1
        (by rw [e3, e4, hlen1]; omega) (by rw [e3, e4, hlen1]; omega)
      obtain ⟨g0, g1, g2, g3⟩ := this
      exact ⟨g0, g1, by omega, by omega⟩

/-- C10, as amended. For every sequence of `AllocateAligned` calls with
`bytes <= 1024` on a freshly constructed arena, `new[]` handing back multiples
of 8 and the run short enough for the `size_t` counter not to wrap
(`calls * (4096 + sizeof(char*)) < 2 ^ 64`): every block in `blocks_` is a
standard one, and the wasted bytes, `memory_usage_` minus the sum of the
requested sizes, never exceed
`blocks * (threshold - 1) + burned alignment slop + blocks * sizeof(char*)
 + alloc_bytes_remaining_`, with `threshold = kBlockSize / 4 = 1024`. -/
theorem small_requests_waste_bound (reqs : List Request)
    (hsmall : ∀ r ∈ reqs, r.bytes ≤ kBlockSize / 4)
    (hfresh : ∀ r ∈ reqs, r.fresh % 8 = 0)
    (hlen : reqs.length * (kBlockSize + sizeofPtr) < 2 ^ 64) :
    (∀ b ∈ (Arena.ctor.runAligned reqs).2.blocks_, b.size = kBlockSize) ∧
    requestedBytes (Arena.ctor.runAligned reqs).1 ≤ (Arena.ctor.runAligned reqs).2.memory_usage_ ∧
    (Arena.ctor.runAligned reqs).2.memory_usage_ - requestedBytes (Arena.ctor.runAligned reqs).1
      ≤ (Arena.ctor.runAligned reqs).2.blocks_.length * (kBlockSize / 4 - 1)
        + burnedSlop (Arena.ctor.runAligned reqs).1
        + (Arena.ctor.runAligned reqs).2.blocks_.length * sizeofPtr
        + (Arena.ctor.runAligned reqs).2.alloc_bytes_remaining_ := by
  have hsm : ∀ r ∈ reqs, r.bytes ≤ 1024 := fun r hr => by
    have := hsmall r hr
    unfold kBlockSize at this
    omega
  have hl : (Arena.ctor.blocks_.length + reqs.length) * 4104 < 2 ^ 64 := by
    unfold kBlockSize sizeofPtr at hlen
    simp only [Arena.ctor, List.length_nil]
    omega
  obtain ⟨g0, g1, g2, g3⟩ := waste_accounting reqs Arena.ctor 0 0 (Or.inl ⟨rfl, rfl⟩) hsm hfresh hl
    (fun b hb => by cases hb) rfl (by decide) (by decide)
  refine ⟨g0, ?_, ?_⟩
  · omega
  · have hk : kBlockSize / 4 - 1 = 1023 := by decide
    rw [hk]
    unfold sizeofPtr
    omega

theorem small_requests_waste_bound_witness :
    (Arena.ctor.runAligned refillRequests).2.memory_usage_
        - requestedBytes (Arena.ctor.runAligned refillRequests).1
      ≤ (Arena.ctor.runAligned refillRequests).2.blocks_.length * (kBlockSize / 4 - 1)
        + burnedSlop (Arena.ctor.runAligned refillRequests).1
        + (Arena.ctor.runAligned refillRequests).2.blocks_.length * sizeofPtr
        + (Arena.ctor.runAligned refillRequests).2.alloc_bytes_remaining_ :=
  (small_requests_waste_bound refillRequests (by decide) (by decide) (by decide)).2.2

/-- C10 fails as stated. `refillRequests` are five small requests on the fresh
arena, the last of which triggers a refill; no call computes a non-zero slop.
Two standard blocks are acquired, `memory_usage_` is `2 * 4104 = 8208`, the
requested sizes sum to 4097, so 4111 bytes are wasted, more than
`2 * 1023 + 0 = 2046`. -/
theorem waste_bound_counterexample :
    (∀ r ∈ refillRequests, r.bytes ≤ 1024) ∧
      (Arena.ctor.runAligned refillRequests).2.blocks_
        = [{ start := 8, size := 4096 }, { start := 8192, size := 4096 }] ∧
      (Arena.ctor.runAligned refillRequests).2.memory_usage_ = 8208 ∧
      requestedBytes (Arena.ctor.runAligned refillRequests).1 = 4097 ∧
      burnedSlop (Arena.ctor.runAligned refillRequests).1 = 0 ∧
      (Arena.ctor.runAligned refillRequests).1.map Allocation.ptr
        = [8, 1032, 2056, 3080, 8192] ∧
      ¬ ((Arena.ctor.runAligned refillRequests).2.memory_usage_
            - requestedBytes (Arena.ctor.runAligned refillRequests).1
          ≤ (Arena.ctor.runAligned refillRequests).2.blocks_.length * (1024 - 1)
            + burnedSlop (Arena.ctor.runAligned refillRequests).1) := by
  decide

/-! ## C11: a request of 4000 bytes on the fresh arena -/

theorem ctor_slop : Arena.ctor.slop = 0 := by decide

/-- The cursor of a state with null `alloc_ptr_` needs no padding. -/
theorem slop_of_null (s : Arena) (h : s.alloc_ptr_ = 0) : s.slop = 0 := by
  rw [slop_eq, h]
  rfl

/-- With the cursor unset, every request of at least one byte goes to
`AllocateFallback`. -/
theorem AllocateAligned_unset (s : Arena) (bytes fresh : Nat) (hp : s.alloc_ptr_ = 0)
    (hr : s.alloc_bytes_remaining_ = 0) (hpos : 0 < bytes) (hlt : bytes < 2 ^ 64) :
    s.AllocateAligned bytes fresh = s.AllocateFallback bytes fresh := by
  apply AllocateAligned_slow
  unfold Arena.needed sizeModulus
  rw [slop_of_null s hp, hr, Nat.add_zero, Nat.mod_eq_of_lt hlt]
  omega

/-- C11, as amended. On a freshly constructed arena a request of 4000 bytes,
made through `AllocateAligned` or `AllocateFallback`, is a large request
(`4000 > kBlockSize / 4`): it acquires a dedicated block of 4000 bytes, returns
its start, leaves the cursor unset with 0 bytes remaining, and brings
`memory_usage_` to `4000 + sizeof(char*)`. A following request of 200 bytes
installs the first standard block, leaves the cursor at offset 200 of it with
3896 bytes remaining, and brings `memory_usage_` to
`(4000 + sizeof(char*)) + (4096 + sizeof(char*))`. -/
theorem fresh_4000_then_200 (fresh fresh2 : Nat) :
    Arena.ctor.AllocateAligned 4000 fresh
      = (fresh, { alloc_ptr_ := 0, alloc_bytes_remaining_ := 0,
                  blocks_ := [{ start := fresh, size := 4000 }],
                  memory_usage_ := 4000 + sizeofPtr }) ∧
    Arena.ctor.AllocateFallback 4000 fresh = Arena.ctor.AllocateAligned 4000 fresh ∧
    (Arena.ctor.AllocateAligned 4000 fresh).2.AllocateAligned 200 fresh2
      = (fresh2, { alloc_ptr_ := fresh2 + 200, alloc_bytes_remaining_ := 3896,
                   blocks_ := [{ start := fresh, size := 4000 },
                               { start := fresh2, size := 4096 }],
                   memory_usage_ := (4000 + sizeofPtr) + (4096 + sizeofPtr) }) := by
  have h1 : ¬ Arena.ctor.needed 4000 ≤ Arena.ctor.alloc_bytes_remaining_ := by decide
  have e1 : Arena.ctor.AllocateAligned 4000 fresh
      = (fresh, { alloc_ptr_ := 0, alloc_bytes_remaining_ := 0,
                  blocks_ := [{ start := fresh, size := 4000 }],
                  memory_usage_ := 4000 + sizeofPtr }) := by
    rw [AllocateAligned_slow _ _ _ h1, AllocateFallback_large _ _ _ (by decide)]
    rfl
  refine ⟨e1, ?_, ?_⟩
  · rw [AllocateAligned_slow _ _ _ h1]
  · rw [e1, AllocateAligned_unset _ 200 fresh2 rfl rfl (by decide) (by decide),
      AllocateFallback_small _ _ _ (by decide)]
    have hu : (4000 + sizeofPtr + 4104) % sizeModulus = 4000 + sizeofPtr + (4096 + sizeofPtr) := by
      decide
    simp only [hu, List.singleton_append]

/-- C11 fails as stated. With `new[]` handing back address 8, the request of
4000 bytes on the fresh arena acquires a block of 4000 bytes, not of 4096; the
cursor stays null with 0 bytes remaining, not at offset 4000 with 96 remaining;
and after a following request of 200 bytes (block at 8192) `memory_usage_` is
`8112`, not `2 * (4096 + sizeof(char*)) = 8208`. -/
theorem fresh_4000_counterexample :
    (Arena.ctor.AllocateAligned 4000 8).2
        = { alloc_ptr_ := 0, alloc_bytes_remaining_ := 0,
            blocks_ := [{ start := 8, size := 4000 }], memory_usage_ := 4008 } ∧
      (Arena.ctor.AllocateFallback 4000 8).2 = (Arena.ctor.AllocateAligned 4000 8).2 ∧
      (Arena.ctor.AllocateAligned 4000 8).2.blocks_ ≠ [{ start := 8, size := kBlockSize }] ∧
      (Arena.ctor.AllocateAligned 4000 8).2.alloc_ptr_ ≠ 8 + 4000 ∧
      (Arena.ctor.AllocateAligned 4000 8).2.alloc_bytes_remaining_ ≠ 96 ∧
      ((Arena.ctor.AllocateAligned 4000 8).2.AllocateAligned 200 8192).2.memory_usage_ = 8112 ∧
      ((Arena.ctor.AllocateAligned 4000 8).2.AllocateAligned 200 8192).2.memory_usage_
        ≠ 2 * (kBlockSize + sizeofPtr) := by
  decide

/-! ## C12: a request of 2000 bytes with 3896 bytes remaining -/

/-- C12, as amended. In a state whose cursor is at offset 200 of the current
standard block `[b, b + 4096)` with 3896 bytes remaining, `AllocateAligned(2000)`
is served from the current block: no block is acquired, `memory_usage_` is
unchanged, the result is `alloc_ptr_ + slop`, the cursor advances by
`2000 + slop` and as much is taken off the remaining capacity (with `b` a
multiple of 8 the slop is 0: result at offset 200, cursor at offset 2200, 1896
bytes remaining). Only `AllocateFallback(2000)` itself acquires a dedicated block
of 2000 bytes, adds `2000 + sizeof(char*)` to the `size_t` counter and leaves
cursor and remaining capacity unchanged. -/
theorem offset200_request_2000 (s : Arena) (b fresh : Nat)
    (hptr : s.alloc_ptr_ = b + 200) (hrem : s.alloc_bytes_remaining_ = 3896) :
    (s.needed 2000 = 2000 + s.slop ∧ s.needed 2000 ≤ s.alloc_bytes_remaining_) ∧
    ((s.AllocateAligned 2000 fresh).1 = b + 200 + s.slop ∧
      (s.AllocateAligned 2000 fresh).2.blocks_ = s.blocks_ ∧
      (s.AllocateAligned 2000 fresh).2.memory_usage_ = s.memory_usage_ ∧
      (s.AllocateAligned 2000 fresh).2.alloc_ptr_ = b + 200 + (2000 + s.slop) ∧
      (s.AllocateAligned 2000 fresh).2.alloc_bytes_remaining_ + (2000 + s.slop) = 3896) ∧
    (b % 8 = 0 → s.slop = 0 ∧ (s.AllocateAligned 2000 fresh).1 = b + 200 ∧
      (s.AllocateAligned 2000 fresh).2.alloc_ptr_ = b + 2200 ∧
      (s.AllocateAligned 2000 fresh).2.alloc_bytes_remaining_ = 1896) ∧
    ((s.AllocateFallback 2000 fresh).1 = fresh ∧
      (s.AllocateFallback 2000 fresh).2.blocks_
        = s.blocks_ ++ [{ start := fresh, size := 2000 }] ∧
      (s.AllocateFallback 2000 fresh).2.memory_usage_
        = (s.memory_usage_ + (2000 + sizeofPtr)) % 2 ^ 64 ∧
      (s.AllocateFallback 2000 fresh).2.alloc_ptr_ = b + 200 ∧
      (s.AllocateFallback 2000 fresh).2.alloc_bytes_remaining_ = 3896) := by
  have hneed := needed_exact s 2000 (by decide)
  have hslop := slop_lt s
  have hfast : s.needed 2000 ≤ s.alloc_bytes_remaining_ := by rw [hneed, hrem]; omega
  have hA := AllocateAligned_fast s 2000 fresh hfast
  refine ⟨⟨hneed, hfast⟩, ?_, ?_, ?_⟩
  · rw [hA, hneed]
    refine ⟨by rw [hptr], rfl, rfl, by rw [hptr], ?_⟩
    show s.alloc_bytes_remaining_ - (2000 + s.slop) + (2000 + s.slop) = 3896
    omega
  · intro hb
    have h0 : s.slop = 0 := by
      rw [slop_eq, hptr]
      have : (b + 200) % 8 = 0 := by omega
      rw [if_pos this]
    rw [hA, hneed, h0]
    refine ⟨rfl, by rw [hptr], ?_, ?_⟩
    · show s.alloc_ptr_ + (2000 + 0) = b + 2200
      omega
    · show s.alloc_bytes_remaining_ - (2000 + 0) = 1896
      omega
  · rw [AllocateFallback_large s 2000 fresh (by decide)]
    exact ⟨rfl, rfl, rfl, hptr, hrem⟩

theorem offset200_request_2000_witness :
    (offset200State.AllocateAligned 2000 8192).2.alloc_ptr_ = 8 + 2200 ∧
      (offset200State.AllocateAligned 2000 8192).2.alloc_bytes_remaining_ = 1896 ∧
      (offset200State.AllocateAligned 2000 8192).2.memory_usage_
        = offset200State.memory_usage_ :=
  ⟨((offset200_request_2000 offset200State 8 8192 (by decide) (by decide)).2.2.1
      (by decide)).2.2.1,
    ((offset200_request_2000 offset200State 8 8192 (by decide) (by decide)).2.2.1
      (by decide)).2.2.2,
    (offset200_request_2000 offset200State 8 8192 (by decide) (by decide)).2.1.2.2.1⟩

/-- C12 fails as stated. In `offset200State` (cursor at offset 200 of `[8, 4104)`,
3896 bytes remaining) the request of 2000 bytes takes the fast path of
`AllocateAligned`: it returns the old cursor 208, acquires no block, leaves
`memory_usage_` at 4104 instead of adding `2000 + sizeof(char*)`, and moves the
cursor to offset 2200 with 1896 bytes remaining. -/
theorem offset200_counterexample :
    offset200State.alloc_ptr_ = 8 + 200 ∧ offset200State.alloc_bytes_remaining_ = 3896 ∧
      offset200State.needed 2000 ≤ offset200State.alloc_bytes_remaining_ ∧
      (offset200State.AllocateAligned 2000 8192).1 = 208 ∧
      (offset200State.AllocateAligned 2000 8192).2.blocks_ = offset200State.blocks_ ∧
      (offset200State.AllocateAligned 2000 8192).2.memory_usage_
        ≠ offset200State.memory_usage_ + (2000 + sizeofPtr) ∧
      (offset200State.AllocateAligned 2000 8192).2.alloc_ptr_ ≠ offset200State.alloc_ptr_ ∧
      (offset200State.AllocateAligned 2000 8192).2.alloc_bytes_remaining_ ≠ 3896 := by
  decide

/-! ## C13: the counter and the blocks held -/

/-- C13. The freshly constructed arena has `memory_usage_ = 0` and no blocks,
and in every state reached from it by calls of `AllocateAligned` and
`AllocateFallback`, the memory held lying in the address space, `memory_usage_`
equals the sum over all blocks in `blocks_` of (block size + `sizeof(char*)`),
that is, the total of the block sizes plus `sizeof(char*)` times the number of
blocks. -/
theorem reachable_memory_usage (calls : List Call) (storage : Nat)
    (hspace : (Tracked.ctor.run calls).arena.inAddressSpace storage) :
    (Arena.ctor.memory_usage_ = 0 ∧ Arena.ctor.blocks_ = []) ∧
    (Tracked.ctor.run calls).arena.memory_usage_
      = blockTotal (Tracked.ctor.run calls).arena.blocks_ ∧
    (Tracked.ctor.run calls).arena.memory_usage_
      = blockBytes (Tracked.ctor.run calls).arena.blocks_
        + sizeofPtr * (Tracked.ctor.run calls).arena.blocks_.length := by
  have h := usage_run calls Tracked.ctor (by decide)
  have hlt := blockTotal_lt _ storage hspace
  rw [Nat.mod_eq_of_lt hlt] at h
  refine ⟨⟨rfl, rfl⟩, h, ?_⟩
  rw [h, blockTotal_eq]

theorem reachable_memory_usage_witness :
    (Tracked.ctor.run sampleCalls).arena.inAddressSpace 65536 ∧
      (Tracked.ctor.run sampleCalls).arena.memory_usage_
        = blockTotal (Tracked.ctor.run sampleCalls).arena.blocks_ ∧
      (Tracked.ctor.run sampleCalls).arena.memory_usage_ = 10216 :=
  ⟨by decide, (reachable_memory_usage sampleCalls 65536 (by decide)).2.1, by decide⟩

/-! ## C14: a request of zero bytes -/

/-- The invariant of the allocations holds after every run whose blocks are
pairwise disjoint. -/
theorem runAligned_allocInv (reqs : List Request) :
    ∀ (s : Arena) (prev : List Allocation), s.allocInv prev →
      (∀ r ∈ reqs, r.bytes + 7 < 2 ^ 64) →
      List.Pairwise Block.separated (s.runAligned reqs).2.blocks_ →
      (s.runAligned reqs).2.allocInv (prev ++ (s.runAligned reqs).1) := by
  induction reqs with
  | nil =>
    intro s prev hinv _ _
    simpa [Arena.runAligned] using hinv
  | cons r rs ih =>
    intro s prev hinv hsz hblocks
    simp only [Arena.runAligned] at hblocks ⊢
    obtain ⟨l, hl⟩ := runAligned_blocks_prefix rs (s.AllocateAligned r.bytes r.fresh).2
    have hsep1 : List.Pairwise Block.separated (s.AllocateAligned r.bytes r.fresh).2.blocks_ := by
      rw [hl] at hblocks
      exact (List.pairwise_append.1 hblocks).1
    obtain ⟨hinv1, -⟩ := allocInv_step s prev r hinv (hsz r (List.mem_cons_self _ _)) hsep1
    have := ih _ _ hinv1 (fun q hq => hsz q (List.mem_cons_of_mem _ hq)) hblocks
    simpa [List.append_assoc] using this

/-- With a null `alloc_ptr_`, `AllocateAligned(0)` takes the fast path with
`slop = 0` and `needed = 0`: it returns the null pointer and changes nothing. -/
theorem AllocateAligned_zero_of_null (u : Arena) (fresh : Nat) (h : u.alloc_ptr_ = 0) :
    u.AllocateAligned 0 fresh = (0, u) := by
  have hs := slop_of_null u h
  have hn : u.needed 0 = 0 := by
    unfold Arena.needed
    rw [hs]
    rfl
  rw [AllocateAligned_fast u 0 fresh (by rw [hn]; exact Nat.zero_le _), hn, hs, h]
  cases u
  simp only at h
  subst h
  rfl

/-- C14, as amended. In every state whose cursor is unset (`alloc_ptr_` null), so
in particular on the freshly constructed arena, `AllocateAligned(0)` returns
the null pointer, acquires no block and leaves the state unchanged. Take a
state reached from the fresh arena by `AllocateAligned` calls (each
`bytes + 7 < 2 ^ 64`) in which the cursor is set (`alloc_ptr_` not null), with
`new[]` handing back pairwise disjoint arrays at non-null addresses. Then
`AllocateAligned(0)` returns a non-null address `p` that lies in a block owned
by the arena or one past its end; every earlier requested range ends at or
before `p` or begins at or after `p`; and unless the slop uses up exactly the
remaining capacity (`slop = alloc_bytes_remaining_`, so that `p` is one past
the end of the current block), `p` lies in no earlier requested range. -/
theorem zero_byte_request (reqs : List Request) (fresh : Nat) :
    (∀ u : Arena, u.alloc_ptr_ = 0 →
      u.AllocateAligned 0 fresh = (0, u) ∧ (u.AllocateAligned 0 fresh).1 = 0 ∧
      (u.AllocateAligned 0 fresh).2.blocks_ = u.blocks_) ∧
    ((∀ r ∈ reqs, r.bytes + 7 < 2 ^ 64) →
      List.Pairwise Block.separated
        ((Arena.ctor.runAligned reqs).2.AllocateAligned 0 fresh).2.blocks_ →
      (∀ b ∈ ((Arena.ctor.runAligned reqs).2.AllocateAligned 0 fresh).2.blocks_,
        0 < b.start) →
      (Arena.ctor.runAligned reqs).2.alloc_ptr_ ≠ 0 →
      ((Arena.ctor.runAligned reqs).2.AllocateAligned 0 fresh).1 ≠ 0 ∧
      (∃ b ∈ ((Arena.ctor.runAligned reqs).2.AllocateAligned 0 fresh).2.blocks_,
        b.start ≤ ((Arena.ctor.runAligned reqs).2.AllocateAligned 0 fresh).1 ∧
        ((Arena.ctor.runAligned reqs).2.AllocateAligned 0 fresh).1 ≤ b.start + b.size) ∧
      (∀ a ∈ (Arena.ctor.runAligned reqs).1,
        a.ptr + a.bytes ≤ ((Arena.ctor.runAligned reqs).2.AllocateAligned 0 fresh).1 ∨
        ((Arena.ctor.runAligned reqs).2.AllocateAligned 0 fresh).1 ≤ a.ptr) ∧
      ((Arena.ctor.runAligned reqs).2.slop
          ≠ (Arena.ctor.runAligned reqs).2.alloc_bytes_remaining_ →
        ∀ a ∈ (Arena.ctor.runAligned reqs).1,
          ¬ (a.ptr ≤ ((Arena.ctor.runAligned reqs).2.AllocateAligned 0 fresh).1 ∧
            ((Arena.ctor.runAligned reqs).2.AllocateAligned 0 fresh).1
              < a.ptr + a.bytes))) := by
  refine ⟨fun u hu => ?_, ?_⟩
  · rw [AllocateAligned_zero_of_null u fresh hu]
    exact ⟨rfl, rfl, rfl⟩
  intro hsz hblocks hnonnull hset
  generalize hs : (Arena.ctor.runAligned reqs).2 = s at *
  generalize hal : (Arena.ctor.runAligned reqs).1 = allocs at *
  have hsep0 : List.Pairwise Block.separated s.blocks_ := by
    rcases AllocateAligned_blocks s 0 fresh with h | ⟨n, h⟩
    · rw [h] at hblocks; exact hblocks
    · rw [h] at hblocks; exact (List.pairwise_append.1 hblocks).1
  have hinv : s.allocInv allocs := by
    have := runAligned_allocInv reqs Arena.ctor [] ctor_allocInv hsz (by rw [hs]; exact hsep0)
    rw [hs, hal, List.nil_append] at this
    exact this
  obtain ⟨hblk, hclr, htail⟩ := hinv
  have hneed := needed_exact s 0 (by decide)
  rw [Nat.zero_add] at hneed
  unfold Arena.tailInBlocks at htail
  rcases htail with ⟨h0, -⟩ | ⟨b, hbm, hlo, hhi⟩
  · exact absurd h0 hset
  rcases AllocateAligned_cases s 0 fresh with
    ⟨hf, e1, -, -, e4, -⟩ | ⟨-, hbig, -, -, -, -, -⟩ | ⟨hslow, -, e1, -, -, e4, -⟩
  · -- served from the current block
    rw [hneed] at hf
    rw [e1, e4]
    refine ⟨by omega, ⟨b, hbm, by omega, by omega⟩, ?_, ?_⟩
    · intro a ha
      have := hclr a ha
      unfold Allocation.clearOfTail at this
      omega
    · intro hne a ha
      have := hclr a ha
      unfold Allocation.clearOfTail at this
      omega
  · omega
  · -- a new standard block
    rw [hneed] at hslow
    rw [e4] at hblocks hnonnull
    rw [e1, e4]
    have hfresh : 0 < fresh :=
      hnonnull { start := fresh, size := 4096 }
        (List.mem_append_right _ (List.mem_singleton.2 rfl))
    have hnew : ∀ c ∈ s.blocks_, c.separated { start := fresh, size := 4096 } := by
      intro c hc
      exact (List.pairwise_append.1 hblocks).2.2 c hc _ (List.mem_singleton.2 rfl)
    have hold : ∀ a ∈ allocs, a.ptr + a.bytes ≤ fresh ∨ fresh < a.ptr := by
      intro a ha
      rcases hblk a ha with ⟨h1, h2⟩ | ⟨c, hc, h1, h2⟩
      · left; omega
      · have := hnew c hc
        unfold Block.separated at this
        simp only at this
        omega
    refine ⟨by omega,
      ⟨{ start := fresh, size := 4096 }, List.mem_append_right _ (List.mem_singleton.2 rfl),
        le_refl _, by simp only; omega⟩, ?_, ?_⟩
    · intro a ha
      have := hold a ha
      omega
    · intro _ a ha
      have := hold a ha
      omega

theorem zero_byte_request_witness :
    (Arena.ctor.runAligned [⟨4000, 8⟩]).2.alloc_ptr_ = 0 ∧
      (Arena.ctor.runAligned [⟨4000, 8⟩]).2.blocks_ = [{ start := 8, size := 4000 }] ∧
      (Arena.ctor.runAligned [⟨4000, 8⟩]).2.AllocateAligned 0 16
        = (0, (Arena.ctor.runAligned [⟨4000, 8⟩]).2) ∧
      ((Arena.ctor.runAligned sampleRequests).2.AllocateAligned 0 0).1 = 3168 ∧
      ((Arena.ctor.runAligned sampleRequests).2.AllocateAligned 0 0).1 ≠ 0 ∧
      ∀ a ∈ (Arena.ctor.runAligned sampleRequests).1,
        ¬ (a.ptr ≤ ((Arena.ctor.runAligned sampleRequests).2.AllocateAligned 0 0).1 ∧
          ((Arena.ctor.runAligned sampleRequests).2.AllocateAligned 0 0).1 < a.ptr + a.bytes) :=
  ⟨by decide, by decide,
    ((zero_byte_request [] 16).1 (Arena.ctor.runAligned [⟨4000, 8⟩]).2 (by decide)).1,
    by decide,
    ((zero_byte_request sampleRequests 0).2 (by decide) (by decide) (by decide) (by decide)).1,
    ((zero_byte_request sampleRequests 0).2 (by decide) (by decide) (by decide)
      (by decide)).2.2.2 (by decide)⟩

/-- C14 fails as stated. On the freshly constructed arena `AllocateAligned(0)`
takes the fast path (`needed = 0 <= 0`): it returns the null pointer, leaves the
arena without any block, and does not touch the address `new[]` would have
handed back. And after `adjacentRequests`, where the standard block `[8, 4104)`
is full and the dedicated array of the first request starts at 4104,
`AllocateAligned(0)` returns 4104, the first byte of the range `[4104, 6104)`
requested earlier. -/
theorem zero_byte_counterexample :
    Arena.ctor.AllocateAligned 0 8 = (0, Arena.ctor) ∧
      (Arena.ctor.AllocateAligned 0 8).1 = 0 ∧
      (Arena.ctor.AllocateAligned 0 8).2.blocks_ = [] ∧
      (Arena.ctor.runAligned adjacentRequests).2.blocks_
        = [{ start := 4104, size := 2000 }, { start := 8, size := 4096 }] ∧
      List.Pairwise Block.separated (Arena.ctor.runAligned adjacentRequests).2.blocks_ ∧
      (Arena.ctor.runAligned adjacentRequests).2.alloc_ptr_ = 4104 ∧
      (Arena.ctor.runAligned adjacentRequests).2.alloc_bytes_remaining_ = 0 ∧
      ({ ptr := 4104, bytes := 2000, burned := 0 } : Allocation)
        ∈ (Arena.ctor.runAligned adjacentRequests).1 ∧
      ((Arena.ctor.runAligned adjacentRequests).2.AllocateAligned 0 0).1 = 4104 ∧
      (4104 ≤ ((Arena.ctor.runAligned adjacentRequests).2.AllocateAligned 0 0).1 ∧
        ((Arena.ctor.runAligned adjacentRequests).2.AllocateAligned 0 0).1 < 4104 + 2000) := by
  decide

/-! ## C16: `blocks_` is the acquisition log, and the destructor releases it -/

theorem fallbackBlockBytes_large (bytes : Nat) (h : bytes > 1024) :
    Arena.fallbackBlockBytes bytes = bytes := by
  rw [fallbackBlockBytes_eq, if_pos h]

theorem fallbackBlockBytes_small (bytes : Nat) (h : bytes ≤ 1024) :
    Arena.fallbackBlockBytes bytes = 4096 := by
  rw [fallbackBlockBytes_eq, if_neg (by omega)]

/-- A call appends to `blocks_` exactly the blocks it acquires. -/
theorem step_blocks (s : Arena) (c : Call) :
    (s.step c).blocks_ = s.blocks_ ++ s.acquired c := by
  cases c with
  | aligned bytes fresh =>
    simp only [Arena.step, Arena.acquired]
    rcases AllocateAligned_cases s bytes fresh with
      ⟨hf, -, -, -, e4, -⟩ | ⟨hs, hb, -, -, -, e4, -⟩ | ⟨hs, hb, -, -, -, e4, -⟩
    · rw [if_pos ((fastPath_eq_true s bytes).2 hf), e4, List.append_nil]
    · rw [if_neg (fun h => hs ((fastPath_eq_true s bytes).1 h)), e4,
        fallbackBlockBytes_large bytes hb]
    · rw [if_neg (fun h => hs ((fastPath_eq_true s bytes).1 h)), e4,
        fallbackBlockBytes_small bytes hb]
  | fallback bytes fresh =>
    simp only [Arena.step, Arena.acquired]
    rcases AllocateFallback_cases s bytes fresh with
      ⟨hb, -, -, -, e4, -⟩ | ⟨hb, -, -, -, e4, -⟩
    · rw [e4, fallbackBlockBytes_large bytes hb]
    · rw [e4, fallbackBlockBytes_small bytes hb]

theorem run_blocks (calls : List Call) :
    ∀ t : Tracked, (t.run calls).arena.blocks_
      = t.arena.blocks_ ++ t.arena.acquiredLog calls := by
  induction calls with
  | nil => intro t; simp [Tracked.run, Arena.acquiredLog]
  | cons c cs ih =>
    intro t
    have h := ih (t.step c)
    have hb : (t.step c).arena.blocks_ = t.arena.blocks_ ++ t.arena.acquired c :=
      step_blocks t.arena c
    have ha : (t.step c).arena = t.arena.step c := rfl
    simp only [Tracked.run, List.foldl_cons] at h ⊢
    rw [h, hb, ha, Arena.acquiredLog, List.append_assoc]

/-- The loop of the destructor, from index `i` on, hands to `delete[]` the
entries of `blocks_` from index `i` on. -/
theorem releaseFrom_eq (s : Arena) :
    ∀ (n i : Nat), s.blocks_.length - i = n →
      s.releaseFrom i = (s.blocks_.drop i).map Block.start := by
  intro n
  induction n with
  | zero =>
    intro i hi
    rw [Arena.releaseFrom, dif_neg (by omega), List.drop_of_length_le (by omega)]
    rfl
  | succ n ih =>
    intro i hi
    have hlt : i < s.blocks_.length := by omega
    rw [Arena.releaseFrom, dif_pos hlt, ih (i + 1) (by omega), List.drop_eq_getElem_cons hlt]
    rfl

theorem dtor_eq (s : Arena) : s.dtor = s.blocks_.map Block.start := by
  unfold Arena.dtor
  rw [releaseFrom_eq s _ 0 rfl, List.drop_zero]

/-- C16. In every state reached from the constructor by calls of
`AllocateAligned` and `AllocateFallback`, `blocks_` is exactly the list of
blocks acquired by `AllocateNewBlock` since construction, each once and in
acquisition order, and a call changes `blocks_` only by appending the blocks it
acquires. The destructor hands to `delete[]` exactly the entries of `blocks_`,
one per index `0 .. size - 1` in that order, and nothing else. -/
theorem blocks_are_acquisitions (calls : List Call) :
    (Tracked.ctor.run calls).arena.blocks_ = Arena.ctor.acquiredLog calls ∧
    (∀ c : Call, ((Tracked.ctor.run calls).arena.step c).blocks_
      = (Tracked.ctor.run calls).arena.blocks_ ++ (Tracked.ctor.run calls).arena.acquired c) ∧
    (Tracked.ctor.run calls).arena.dtor
      = (Tracked.ctor.run calls).arena.blocks_.map Block.start ∧
    (Tracked.ctor.run calls).arena.dtor.length = (Tracked.ctor.run calls).arena.blocks_.length ∧
    ∀ (i : Nat) (h : i < (Tracked.ctor.run calls).arena.blocks_.length),
      (Tracked.ctor.run calls).arena.dtor[i]? = some ((Tracked.ctor.run calls).arena.blocks_[i].start) := by
  refine ⟨?_, fun c => step_blocks _ c, dtor_eq _, ?_, ?_⟩
  · have h := run_blocks calls Tracked.ctor
    rw [h]
    rfl
  · rw [dtor_eq, List.length_map]
  · intro i h
    rw [dtor_eq, List.getElem?_map, List.getElem?_eq_getElem h]
    rfl

/-! ## C17: the padding computed by the bit mask -/

/-- C17. For every cursor address `a = alloc_ptr_`, the computation
`current_mod = a & (align - 1)`, `slop = (current_mod == 0 ? 0 : align - current_mod)`
gives `0 <= slop <= 7` and `a + slop` is the least multiple of 8 that is `>= a`.
Hence on the fast path the returned address is the smallest multiple of 8 not
below the old cursor, and it is at most 7 bytes above the old cursor. -/
theorem slop_least_aligned (s : Arena) (bytes fresh : Nat) :
    (s.current_mod = s.alloc_ptr_ &&& (align - 1) ∧
      s.slop = (if s.current_mod = 0 then 0 else align - s.current_mod)) ∧
    (0 ≤ s.slop ∧ s.slop ≤ 7) ∧
    ((s.alloc_ptr_ + s.slop) % 8 = 0 ∧ s.alloc_ptr_ ≤ s.alloc_ptr_ + s.slop ∧
      ∀ m, m % 8 = 0 → s.alloc_ptr_ ≤ m → s.alloc_ptr_ + s.slop ≤ m) ∧
    (s.needed bytes ≤ s.alloc_bytes_remaining_ →
      (s.AllocateAligned bytes fresh).1 = s.alloc_ptr_ + s.slop ∧
      (s.AllocateAligned bytes fresh).1 % 8 = 0 ∧
      s.alloc_ptr_ ≤ (s.AllocateAligned bytes fresh).1 ∧
      (s.AllocateAligned bytes fresh).1 - s.alloc_ptr_ ≤ 7 ∧
      ∀ m, m % 8 = 0 → s.alloc_ptr_ ≤ m → (s.AllocateAligned bytes fresh).1 ≤ m) := by
  have hlt := slop_lt s
  have hal := slop_aligns s
  have hleast : ∀ m, m % 8 = 0 → s.alloc_ptr_ ≤ m → s.alloc_ptr_ + s.slop ≤ m := by
    intro m hm hle
    rw [slop_eq] at hal ⊢
    split at hal <;> split <;> omega
  refine ⟨⟨rfl, rfl⟩, ⟨Nat.zero_le _, by omega⟩, ⟨hal, by omega, hleast⟩, ?_⟩
  intro hf
  rw [AllocateAligned_fast s bytes fresh hf]
  exact ⟨rfl, hal, by simp only; omega, by simp only; omega, hleast⟩

theorem slop_least_aligned_witness :
    (oneByteState.AllocateAligned 100 0).1 = 16 ∧
      (oneByteState.AllocateAligned 100 0).1 - oneByteState.alloc_ptr_ ≤ 7 :=
  ⟨by decide, ((slop_least_aligned oneByteState 100 0).2.2.2 (by decide)).2.2.2.1⟩

/-! ## C18: bytes handed out against bytes reported -/

theorem blockBytes_le_blockTotal (l : List Block) : blockBytes l ≤ blockTotal l := by
  induction l with
  | nil => simp [blockBytes, blockTotal]
  | cons b bs ih =>
    simp only [blockBytes, blockTotal, List.map_cons, List.sum_cons] at ih ⊢
    omega

theorem usage_runAligned (reqs : List Request) :
    ∀ s : Arena, s.memory_usage_ = blockTotal s.blocks_ % sizeModulus →
      (s.runAligned reqs).2.memory_usage_
        = blockTotal (s.runAligned reqs).2.blocks_ % sizeModulus := by
  induction reqs with
  | nil => intro s h; exact h
  | cons r rs ih =>
    intro s h
    simp only [Arena.runAligned]
    exact ih _ (usage_AllocateAligned s r.bytes r.fresh h)

/-- What was handed out (requested bytes and burned padding) together with the
free tail never exceeds the bytes of the blocks held. -/
theorem handed_out_le_blockBytes (reqs : List Request) :
    ∀ (s : Arena) (A S : Nat), (∀ r ∈ reqs, r.bytes + 7 < 2 ^ 64) →
      A + S + s.alloc_bytes_remaining_ ≤ blockBytes s.blocks_ →
      (A + requestedBytes (s.runAligned reqs).1) + (S + burnedSlop (s.runAligned reqs).1)
          + (s.runAligned reqs).2.alloc_bytes_remaining_
        ≤ blockBytes (s.runAligned reqs).2.blocks_ := by
  induction reqs with
  | nil =>
    intro s A S _ h
    simpa [Arena.runAligned, requestedBytes, burnedSlop] using h
  | cons r rs ih =>
    intro s A S hsz h
    have hneed := needed_exact s r.bytes (hsz r (List.mem_cons_self _ _))
    simp only [Arena.runAligned, requestedBytes_cons, burnedSlop_cons]
    have hab : (s.allocationOf r).bytes = r.bytes := rfl
    have habu : (s.allocationOf r).burned = if s.fastPath r.bytes then s.slop else 0 := rfl
    rw [hab, habu]
    have hrest : ∀ q ∈ rs, q.bytes + 7 < 2 ^ 64 := fun q hq => hsz q (List.mem_cons_of_mem _ hq)
    rcases AllocateAligned_cases s r.bytes r.fresh with
      ⟨hf, -, -, e3, e4, -⟩ | ⟨hs, hb, -, -, e3, e4, -⟩ | ⟨hs, hb, -, -, e3, e4, -⟩
    · rw [if_pos ((fastPath_eq_true s r.bytes).2 hf)]
      rw [hneed] at hf e3
      have := ih (s.AllocateAligned r.bytes r.fresh).2 (A + r.bytes) (S + s.slop) hrest
        (by rw [e3, e4]; omega)
      omega
    · rw [if_neg (fun hh => hs ((fastPath_eq_true s r.bytes).1 hh))]
      have := ih (s.AllocateAligned r.bytes r.fresh).2 (A + r.bytes) (S + 0) hrest
        (by rw [e3, e4, blockBytes_append]; simp only; omega)
      omega
    · rw [if_neg (fun hh => hs ((fastPath_eq_true s r.bytes).1 hh))]
      have := ih (s.AllocateAligned r.bytes r.fresh).2 (A + r.bytes) (S + 0) hrest
        (by rw [e3, e4, blockBytes_append]; simp only; omega)
      omega

/-- C18. For every sequence of `AllocateAligned` calls on a freshly constructed
arena with `bytes + 7 < 2 ^ 64` in every request, the memory held after the
sequence lying in the address space, `memory_usage_` after the sequence is at
least the sum of all requested sizes plus all burned alignment slop (plus the
capacity still remaining): the arena hands out no more bytes than it reports
as reserved. -/
theorem handed_out_le_memory_usage (reqs : List Request) (storage : Nat)
    (hsz : ∀ r ∈ reqs, r.bytes + 7 < 2 ^ 64)
    (hspace : (Arena.ctor.runAligned reqs).2.inAddressSpace storage) :
    requestedBytes (Arena.ctor.runAligned reqs).1 + burnedSlop (Arena.ctor.runAligned reqs).1
      ≤ (Arena.ctor.runAligned reqs).2.memory_usage_ ∧
    requestedBytes (Arena.ctor.runAligned reqs).1 + burnedSlop (Arena.ctor.runAligned reqs).1
        + (Arena.ctor.runAligned reqs).2.alloc_bytes_remaining_
      ≤ (Arena.ctor.runAligned reqs).2.memory_usage_ := by
  have h1 := handed_out_le_blockBytes reqs Arena.ctor 0 0 hsz (by decide)
  simp only [Nat.zero_add] at h1
  have h2 := usage_runAligned reqs Arena.ctor (by decide)
  have h3 := blockBytes_le_blockTotal (Arena.ctor.runAligned reqs).2.blocks_
  have hlt := blockTotal_lt _ storage hspace
  rw [Nat.mod_eq_of_lt hlt] at h2
  rw [h2]
  constructor <;> omega

theorem handed_out_le_memory_usage_witness :
    (Arena.ctor.runAligned sampleRequests).2.inAddressSpace 65536 ∧
      requestedBytes (Arena.ctor.runAligned sampleRequests).1
          + burnedSlop (Arena.ctor.runAligned sampleRequests).1
        ≤ (Arena.ctor.runAligned sampleRequests).2.memory_usage_ ∧
      requestedBytes (Arena.ctor.runAligned sampleRequests).1
        + burnedSlop (Arena.ctor.runAligned sampleRequests).1 = 7160 ∧
      (Arena.ctor.runAligned sampleRequests).2.memory_usage_ = 8112 :=
  ⟨by decide, (handed_out_le_memory_usage sampleRequests 65536 (by decide) (by decide)).1,
    by decide, by decide⟩

end leveldb
